import Mathlib

/-! # Songless: the socket.io game coordinator of `index.js`

A shallow embedding of the game part of `index.js`: the song catalog, the hint
tables, the `players` registry, the top-10 file and the socket handlers.

* A handler is a function from the state before the event to the state after
  it together with the list of effects it performed, in program order.
* The `players` object is an association list in key-insertion order, which is
  the order `Object.values` enumerates (socket ids are not integer-like keys).
* `top10.json` is `Option (List Entry)`: `none` when the file is missing or is
  not JSON, which is what the `catch` of `loadTopScores` covers.
* Numbers are `Int` (points) and `Nat` (levels, indices, durations). A table
  read past its end is `none` (`undefined` in JavaScript).
-/

namespace Songless

/-! ## Data -/

/-- An element of `songs`. -/
structure Song where
  url : String
  title : String
deriving DecidableEq, Repr

/-- The catalog `songs`. -/
def songs : List Song :=
  [ { url := "/songs/song1.mp3", title := "Billie jean" },
    { url := "/songs/song2.mp3", title := "Never gonna give you up" },
    { url := "/songs/song3.mp3", title := "Somewhere I Belong" },
    { url := "/songs/song4.mp3", title := "Blinding Lights" } ]

/-- The table `hintDurations`. -/
def hintDurations : List Nat := [0, 1, 2, 4, 8]

/-- The table `hintPoints`. -/
def hintPoints : List Int := [0, 100, 75, 50, 20]

/-- An element of the top-10 list: `{ name, points }`. -/
structure Entry where
  name : String
  points : Int
deriving DecidableEq, Repr

/-- A value of `players`: the object built by `registerPlayer`. -/
structure Player where
  name : String
  points : Int
  guessed : Bool
  hintLevel : Nat
  roundIndex : Nat
deriving DecidableEq, Repr

/-- The key of `players`: `socket.id`. -/
abbrev SocketId := String

/-- The three texts sent as `round info`:
`acertado` is "¡Has acertado!", `siguiente` is "Has pasado a la siguiente canción",
`terminado p` is "Juego terminado. Has conseguido p puntos". -/
inductive RoundInfo where
  | acertado
  | siguiente
  | terminado (points : Int)
deriving DecidableEq, Repr

/-- An outbound socket.io event with its arguments. A duration is `none` when
the table read that produced it was out of range. -/
inductive Event where
  | topScores (entries : List Entry)
  | scoreboard (board : List Player)
  | audioSnippet (url : String) (duration : Option Nat)
  | newHint (duration : Option Nat) (isMaxLevel : Bool)
  | wrongGuess
  | roundInfo (info : RoundInfo)
  | chatMessage (text : String)
deriving DecidableEq, Repr

/-- What a handler does to the outside: `emit id e` is `socket.emit` on the
calling socket, `emitAll e` is `io.emit`, `writeFile l` is the
`fs.writeFileSync` of `saveTopScores`. -/
inductive Effect where
  | emit (id : SocketId) (e : Event)
  | emitAll (e : Event)
  | writeFile (scores : List Entry)
deriving DecidableEq, Repr

/-- The server state: the `players` object and the contents of `top10.json`. -/
structure State where
  players : List (SocketId × Player)
  file : Option (List Entry)
deriving DecidableEq, Repr

/-! ## The `players` object -/

/-- The read `players[id]`. -/
def getPlayer (players : List (SocketId × Player)) (id : SocketId) : Option Player :=
  match players with
  | [] => none
  | (k, v) :: rest => if k = id then some v else getPlayer rest id

/-- The write `players[id] = p`, also used for the in-place update of a field
of `players[id]`: an existing key keeps its position, a new key goes last. -/
def setPlayer (players : List (SocketId × Player)) (id : SocketId) (p : Player) :
    List (SocketId × Player) :=
  match players with
  | [] => [(id, p)]
  | (k, v) :: rest => if k = id then (id, p) :: rest else (k, v) :: setPlayer rest id p

/-- The statement `delete players[id]`. -/
def deletePlayer (players : List (SocketId × Player)) (id : SocketId) :
    List (SocketId × Player) :=
  players.filter (fun kv => kv.1 ≠ id)

/-- The call `Object.values(players)`. -/
def values (players : List (SocketId × Player)) : List Player :=
  players.map Prod.snd

/-! ## Strings -/

/-- The method `toLowerCase` on the letters `A`..`Z`; every other character is
kept. -/
def toLowerCase (s : String) : String :=
  ⟨s.data.map Char.toLower⟩

/-! ## Top 10 -/

/-- The function `loadTopScores`: the parsed file, or `[]` from the `catch`. -/
def loadTopScores (file : Option (List Entry)) : List Entry :=
  match file with
  | some scores => scores
  | none => []

/-- The `for` loop of `updateTopScores` from index `i` on, over the entries
from `i` on: the index at which it breaks, if it does. -/
def breakIndex (playerPoints : Int) (rest : List Entry) (i : Nat) : Option Nat :=
  match rest with
  | [] => none
  | e :: more =>
    if playerPoints > e.points then some i else breakIndex playerPoints more (i + 1)

/-- The call `topScores.splice(i, 0, entry)`. -/
def splice (topScores : List Entry) (i : Nat) (entry : Entry) : List Entry :=
  topScores.take i ++ entry :: topScores.drop i

/-- The outcome of `updateTopScores`: the list it returns, the file afterwards
and the writes it made. -/
structure TopUpdate where
  returned : List Entry
  file : Option (List Entry)
  effects : List Effect
deriving DecidableEq, Repr

/-- The function `updateTopScores`. -/
def updateTopScores (file : Option (List Entry)) (playerName : String) (playerPoints : Int) :
    TopUpdate :=
  let topScores0 := loadTopScores file
  let entry : Entry := { name := playerName, points := playerPoints }
  let hit := breakIndex playerPoints topScores0 0
  let topScores1 := match hit with
    | some i => splice topScores0 i entry
    | none => topScores0
  let inserted1 := hit.isSome
  let push := !inserted1 && decide (topScores1.length < 10)
  let topScores2 := if push then topScores1 ++ [entry] else topScores1
  let inserted2 := inserted1 || push
  let topScores3 := topScores2.take 10
  if inserted2 then
    { returned := topScores3, file := some topScores3, effects := [Effect.writeFile topScores3] }
  else
    { returned := topScores3, file := file, effects := [] }

/-! ## Handlers -/

/-- The function `updateScoreboard`: `Object.values(players)` sorted with the
comparator `b.points - a.points` and sent to everyone. `Array.prototype.sort`
is stable, so equal points keep their order, as they do here. -/
def updateScoreboard (players : List (SocketId × Player)) : Effect :=
  Effect.emitAll (Event.scoreboard
    (List.insertionSort (fun a b : Player => a.points ≥ b.points) (values players)))

/-- The handler of `registerPlayer`. -/
def registerPlayer (s : State) (id : SocketId) (name : String) : State × List Effect :=
  let players := setPlayer s.players id
    { name := name, points := 0, guessed := false, hintLevel := 0, roundIndex := 0 }
  ({ s with players := players },
    [updateScoreboard players, Effect.emit id (Event.topScores (loadTopScores s.file))])

/-- The handler of `chat message`. -/
def chatMessage (s : State) (id : SocketId) (msg : String) : State × List Effect :=
  let sender := match getPlayer s.players id with
    | some player => if player.name = "" then "Desconocido" else player.name
    | none => "Desconocido"
  (s, [Effect.emitAll (Event.chatMessage (sender ++ ": " ++ msg))])

/-- The handler of `play snippet`. -/
def playSnippet (s : State) (id : SocketId) : State × List Effect :=
  match getPlayer s.players id with
  | none => (s, [])
  | some player =>
    match songs[player.roundIndex]? with
    | none => (s, [])
    | some song =>
      (s, [Effect.emit id (Event.audioSnippet song.url hintDurations[player.hintLevel]?)])

/-- The handler of `request hint`. -/
def requestHint (s : State) (id : SocketId) : State × List Effect :=
  match getPlayer s.players id with
  | none => (s, [])
  | some player =>
    if player.hintLevel < hintDurations.length - 1 then
      let player := { player with hintLevel := player.hintLevel + 1 }
      ({ s with players := setPlayer s.players id player },
        [Effect.emit id (Event.newHint hintDurations[player.hintLevel]? false)])
    else
      (s, [Effect.emit id (Event.newHint hintDurations[player.hintLevel]? true)])

/-- The effects after `player.roundIndex++` that depend on `nextSong`, in the
handler of `guess`. -/
def guessTail (id : SocketId) (player : Player) : List Effect :=
  match songs[player.roundIndex]? with
  | some _ =>
    [Effect.emit id (Event.roundInfo RoundInfo.siguiente),
     Effect.emit id (Event.newHint (some 1) false)]
  | none => [Effect.emit id (Event.roundInfo (RoundInfo.terminado player.points))]

/-- The handler of `guess`. The result is `none` when `hintPoints[hintLevel]`
is `undefined`, where JavaScript would make the points `NaN`; no reachable
state does that (`guess_isSome_of_hintLevel_le`). -/
def guess (s : State) (id : SocketId) (text : String) : Option (State × List Effect) :=
  match getPlayer s.players id with
  | none => some (s, [])
  | some player =>
    match songs[player.roundIndex]? with
    | none => some (s, [])
    | some song =>
      if toLowerCase text ≠ toLowerCase song.title then
        some (s, [Effect.emit id Event.wrongGuess])
      else
        match hintPoints[player.hintLevel]? with
        | none => none
        | some awarded =>
          let player1 := { player with points := player.points + awarded }
          let top10 := updateTopScores s.file player1.name player1.points
          let board := updateScoreboard (setPlayer s.players id player1)
          let player2 := { player1 with roundIndex := player1.roundIndex + 1, hintLevel := 1 }
          some ({ players := setPlayer s.players id player2, file := top10.file },
            top10.effects ++
              [Effect.emitAll (Event.topScores top10.returned),
               Effect.emit id (Event.roundInfo RoundInfo.acertado),
               board] ++ guessTail id player2)

/-- The handler of `skip song`. -/
def skipSong (s : State) (id : SocketId) : State × List Effect :=
  match getPlayer s.players id with
  | none => (s, [])
  | some player =>
    let player1 := { player with roundIndex := player.roundIndex + 1, hintLevel := 1 }
    let players := setPlayer s.players id player1
    match songs[player1.roundIndex]? with
    | some _ =>
      ({ s with players := players },
        [Effect.emit id (Event.roundInfo RoundInfo.siguiente),
         Effect.emit id (Event.newHint (some 1) false),
         updateScoreboard players])
    | none =>
      let top10 := updateTopScores s.file player1.name player1.points
      ({ players := players, file := top10.file },
        top10.effects ++
          [Effect.emitAll (Event.topScores top10.returned),
           Effect.emit id (Event.roundInfo (RoundInfo.terminado player1.points)),
           updateScoreboard players])

/-- The handler of `disconnect`. -/
def disconnect (s : State) (id : SocketId) : State × List Effect :=
  let players := deletePlayer s.players id
  ({ s with players := players }, [updateScoreboard players])

/-! ## The event loop -/

/-- An inbound event of a socket. -/
inductive Input where
  | registerPlayer (name : String)
  | chatMessage (msg : String)
  | playSnippet
  | requestHint
  | guess (text : String)
  | skipSong
  | disconnect
deriving DecidableEq, Repr

/-- One inbound event from socket `id`, run to completion. -/
def handle (s : State) (id : SocketId) (input : Input) : Option (State × List Effect) :=
  match input with
  | Input.registerPlayer name => some (registerPlayer s id name)
  | Input.chatMessage msg => some (chatMessage s id msg)
  | Input.playSnippet => some (playSnippet s id)
  | Input.requestHint => some (requestHint s id)
  | Input.guess text => guess s id text
  | Input.skipSong => some (skipSong s id)
  | Input.disconnect => some (disconnect s id)

/-- The state after a sequence of inbound events, in arrival order. -/
def run (s : State) (events : List (SocketId × Input)) : Option State :=
  match events with
  | [] => some s
  | (id, input) :: rest =>
    match handle s id input with
    | none => none
    | some (s1, _) => run s1 rest

/-- The state at start-up: nobody registered, any `top10.json`. -/
def initial (file : Option (List Entry)) : State :=
  { players := [], file := file }

/-- The states the server can be in: the start-up state and what inbound events
lead to from there. -/
inductive Reachable : State → Prop where
  | start (file : Option (List Entry)) : Reachable (initial file)
  | step {s s1 : State} {id : SocketId} {input : Input} {out : List Effect} :
      Reachable s → handle s id input = some (s1, out) → Reachable s1


/-! ## Predicates of the specification -/

/-- Every session has `hintLevel` at most `hintDurations.length - 1`. -/
def HintInBounds (s : State) : Prop :=
  ∀ id player, getPlayer s.players id = some player →
    player.hintLevel ≤ hintDurations.length - 1

/-- Every session has `roundIndex` at most `songs.length`. -/
def RoundInBounds (s : State) : Prop :=
  ∀ id player, getPlayer s.players id = some player → player.roundIndex ≤ songs.length

/-- A top-10 list in descending order of points. -/
abbrev SortedByPoints (l : List Entry) : Prop :=
  l.Pairwise (fun a b => a.points ≥ b.points)

/-- The handler of `guess` went past the comparison of the texts: it sent the
`round info` "¡Has acertado!" to the caller. -/
def guessSucceeds (s : State) (id : SocketId) (text : String) : Bool :=
  match guess s id text with
  | some (_, out) => decide (Effect.emit id (Event.roundInfo RoundInfo.acertado) ∈ out)
  | none => false

/-- The text `text` is `title` with the case of some letters changed: character
by character it is the character of `title`, its upper case or its lower case. -/
def CaseVariant (text title : String) : Prop :=
  List.Forall₂ (fun c t => c = t ∨ c = t.toUpper ∨ c = t.toLower) text.data title.data

/-- The state after `registerPlayer "ana"` and one `request hint` from socket
`"a"` on a server started without `top10.json`. -/
def firstHintState : State :=
  { players := [("a", { name := "ana", points := 0, guessed := false, hintLevel := 1,
                        roundIndex := 0 })],
    file := none }

/-- The state after `n` consecutive `request hint` from socket `id`. -/
def requestHintTimes (s : State) (id : SocketId) (n : Nat) : State :=
  match n with
  | 0 => s
  | k + 1 => (requestHint (requestHintTimes s id k) id).1

/-- The state after `registerPlayer "ana"` and three `skip song` from socket
`"a"` on a server started without `top10.json`: `"a"` is on the last song. -/
def lastSongState : State :=
  { players := [("a", { name := "ana", points := 0, guessed := false, hintLevel := 1,
                        roundIndex := 3 })],
    file := none }

/-- A full top 10, in descending order of points. -/
def fullTop : List Entry :=
  [ { name := "p1", points := 400 }, { name := "p2", points := 375 },
    { name := "p3", points := 350 }, { name := "p4", points := 300 },
    { name := "p5", points := 275 }, { name := "p6", points := 200 },
    { name := "p7", points := 175 }, { name := "p8", points := 100 },
    { name := "p9", points := 100 }, { name := "p10", points := 75 } ]

/-- The state after `registerPlayer "ana"` and four `skip song` from socket
`"a"` on a server started without `top10.json`: the game of `"a"` is over. -/
def finishedState : State :=
  { players := [("a", { name := "ana", points := 0, guessed := false, hintLevel := 1,
                        roundIndex := 4 })],
    file := some [{ name := "ana", points := 0 }] }

/-- The state after sockets `"a"` and `"b"` registered as "ana" and "leo", in
that order, and each guessed the first song at hint level 1: both have 100
points. -/
def tiedState : State :=
  { players := [("a", { name := "ana", points := 100, guessed := false, hintLevel := 1,
                        roundIndex := 1 }),
                ("b", { name := "leo", points := 100, guessed := false, hintLevel := 1,
                        roundIndex := 1 })],
    file := some [{ name := "ana", points := 100 }, { name := "leo", points := 100 }] }

/-- The board of an `Effect` that is a broadcast of `scoreboard`. -/
def boardOf (e : Effect) : Option (List Player) :=
  match e with
  | Effect.emitAll (Event.scoreboard board) => some board
  | _ => none

instance byPoints_total : IsTotal Player (fun a b => a.points ≥ b.points) :=
  ⟨fun a b => le_total b.points a.points⟩

instance byPoints_trans : IsTrans Player (fun a b => a.points ≥ b.points) :=
  ⟨fun _ _ _ hab hbc => le_trans hbc hab⟩

/-- The state after `registerPlayer "ana"` and two `request hint` from socket
`"a"` on a server started without `top10.json`. -/
def secondHintState : State :=
  { players := [("a", { name := "ana", points := 0, guessed := false, hintLevel := 2,
                        roundIndex := 0 })],
    file := none }

/-- Whether socket `id` has registered and not disconnected since, after one
more event `input` from socket `c`, given whether it had before the event. -/
def registeredNext (before : Bool) (c : SocketId) (input : Input) (id : SocketId) : Bool :=
  if c = id then
    match input with
    | Input.registerPlayer _ => true
    | Input.disconnect => false
    | _ => before
  else before

/-- Whether socket `id` has registered and not disconnected since, after the
events `events`, given whether it had before them. -/
def registeredAfter (before : Bool) (events : List (SocketId × Input)) (id : SocketId) : Bool :=
  match events with
  | [] => before
  | (c, input) :: rest => registeredAfter (registeredNext before c input id) rest id

/-- The keys of `players`. -/
def keys (players : List (SocketId × Player)) : List SocketId :=
  players.map Prod.fst

/-! ## The `players` object: lemmas -/

theorem getPlayer_setPlayer_self (players : List (SocketId × Player)) (id : SocketId)
    (p : Player) : getPlayer (setPlayer players id p) id = some p := by
  induction players with
  | nil => simp [setPlayer, getPlayer]
  | cons kv rest ih =>
    obtain ⟨k, v⟩ := kv
    by_cases h : k = id
    · simp [setPlayer, getPlayer, h]
    · simp [setPlayer, getPlayer, h, ih]

theorem getPlayer_setPlayer_other (players : List (SocketId × Player)) (id other : SocketId)
    (p : Player) (h : other ≠ id) :
    getPlayer (setPlayer players id p) other = getPlayer players other := by
  induction players with
  | nil => simp [setPlayer, getPlayer, Ne.symm h]
  | cons kv rest ih =>
    obtain ⟨k, v⟩ := kv
    by_cases hk : k = id
    · subst hk
      simp [setPlayer, getPlayer, Ne.symm h]
    · simp only [setPlayer, hk, if_false, getPlayer, ih]

theorem getPlayer_deletePlayer_self (players : List (SocketId × Player)) (id : SocketId) :
    getPlayer (deletePlayer players id) id = none := by
  induction players with
  | nil => simp [deletePlayer, getPlayer]
  | cons kv rest ih =>
    obtain ⟨k, v⟩ := kv
    by_cases hk : k = id
    · simpa [deletePlayer, List.filter_cons, hk] using ih
    · simpa [deletePlayer, List.filter_cons, hk, getPlayer] using ih

theorem getPlayer_deletePlayer_other (players : List (SocketId × Player)) (id other : SocketId)
    (h : other ≠ id) :
    getPlayer (deletePlayer players id) other = getPlayer players other := by
  induction players with
  | nil => simp [deletePlayer, getPlayer]
  | cons kv rest ih =>
    obtain ⟨k, v⟩ := kv
    by_cases hk : k = id
    · subst hk
      simpa [deletePlayer, List.filter_cons, getPlayer, Ne.symm h] using ih
    · by_cases hko : k = other
      · subst hko
        simp [deletePlayer, List.filter_cons, hk, getPlayer]
      · simpa [deletePlayer, List.filter_cons, hk, getPlayer, hko] using ih

/-! ## The event loop: lemmas -/

theorem Reachable.run {s : State} (hs : Reachable s) (events : List (SocketId × Input))
    {s1 : State} (h : Songless.run s events = some s1) : Reachable s1 := by
  induction events generalizing s with
  | nil =>
    simp only [Songless.run, Option.some.injEq] at h
    exact h ▸ hs
  | cons ev rest ih =>
    obtain ⟨id, input⟩ := ev
    simp only [Songless.run] at h
    cases hstep : handle s id input with
    | none => simp [hstep] at h
    | some r =>
      obtain ⟨s2, out⟩ := r
      simp only [hstep] at h
      exact ih (Reachable.step hs hstep) h

/-- The hint level never leaves the hint tables, whatever the events. -/
theorem Reachable.hintInBounds {s : State} (hs : Reachable s) : HintInBounds s := by
  induction hs with
  | start file =>
    intro id player h
    simp [initial, getPlayer] at h
  | @step s s1 id input out _ hstep ih =>
    intro other player hget
    have key : ∀ (q : Player), q.hintLevel ≤ hintDurations.length - 1 →
        getPlayer (setPlayer s.players id q) other = some player →
        player.hintLevel ≤ hintDurations.length - 1 := by
      intro q hq hg
      by_cases ho : other = id
      · subst ho
        rw [getPlayer_setPlayer_self] at hg
        cases hg
        exact hq
      · rw [getPlayer_setPlayer_other _ _ _ _ ho] at hg
        exact ih other player hg
    cases input with
    | registerPlayer name =>
      simp only [handle, registerPlayer, Option.some.injEq, Prod.mk.injEq] at hstep
      obtain ⟨rfl, -⟩ := hstep
      exact key _ (by simp [hintDurations]) hget
    | chatMessage msg =>
      simp only [handle, chatMessage, Option.some.injEq, Prod.mk.injEq] at hstep
      obtain ⟨rfl, -⟩ := hstep
      exact ih other player hget
    | playSnippet =>
      simp only [handle, playSnippet, Option.some.injEq] at hstep
      split at hstep
      · cases hstep; exact ih other player hget
      · split at hstep <;> cases hstep <;> exact ih other player hget
    | requestHint =>
      simp only [handle, requestHint, Option.some.injEq] at hstep
      split at hstep
      · cases hstep; exact ih other player hget
      · split at hstep
        · rename_i hlt
          cases hstep
          exact key _ (by simp only; omega) hget
        · cases hstep; exact ih other player hget
    | guess text =>
      simp only [handle, guess] at hstep
      split at hstep
      · cases hstep; exact ih other player hget
      · split at hstep
        · cases hstep; exact ih other player hget
        · split at hstep
          · cases hstep; exact ih other player hget
          · split at hstep
            · cases hstep
            · cases hstep
              exact key _ (by simp [hintDurations]) hget
    | skipSong =>
      simp only [handle, skipSong, Option.some.injEq] at hstep
      split at hstep
      · cases hstep; exact ih other player hget
      · split at hstep <;> cases hstep <;> exact key _ (by simp [hintDurations]) hget
    | disconnect =>
      simp only [handle, disconnect, Option.some.injEq, Prod.mk.injEq] at hstep
      obtain ⟨rfl, -⟩ := hstep
      by_cases ho : other = id
      · subst ho
        simp [getPlayer_deletePlayer_self] at hget
      · simp only [getPlayer_deletePlayer_other _ _ _ ho] at hget
        exact ih other player hget

/-- The handler of `guess` returns whenever the hint level is inside `hintPoints`. -/
theorem guess_isSome_of_hintLevel_le (s : State) (id : SocketId) (text : String)
    (h : HintInBounds s) : (guess s id text).isSome = true := by
  unfold guess
  split
  · rfl
  · rename_i player hp
    split
    · rfl
    · split
      · rfl
      · have hb := h id player hp
        have hlen : player.hintLevel < hintPoints.length := by
          simp only [hintDurations, hintPoints, List.length_cons, List.length_nil] at hb ⊢
          omega
        rw [List.getElem?_eq_getElem hlen]
        rfl

/-- On a reachable state every inbound event is handled to completion. -/
theorem Reachable.handle_isSome {s : State} (hs : Reachable s) (id : SocketId)
    (input : Input) : (handle s id input).isSome = true := by
  cases input <;> simp only [handle, Option.isSome_some]
  exact guess_isSome_of_hintLevel_le s id _ hs.hintInBounds


/-! ## Strings: lemmas -/

theorem toLower_toUpper (c : Char) : c.toUpper.toLower = c.toLower := by
  by_cases h : c.toNat ≥ 97 ∧ c.toNat ≤ 122
  · have hc : c = Char.ofNat c.toNat := (Char.ofNat_toNat c).symm
    generalize c.toNat = n at h hc
    subst hc
    obtain ⟨h1, h2⟩ := h
    interval_cases n <;> rfl
  · simp [Char.toUpper, h]

theorem toLower_toLower (c : Char) : c.toLower.toLower = c.toLower := by
  by_cases h : c.toNat ≥ 65 ∧ c.toNat ≤ 90
  · have hc : c = Char.ofNat c.toNat := (Char.ofNat_toNat c).symm
    generalize c.toNat = n at h hc
    subst hc
    obtain ⟨h1, h2⟩ := h
    interval_cases n <;> rfl
  · have h1 : c.toLower = c := by simp [Char.toLower, h]
    rw [h1, h1]

theorem map_toLower_of_caseVariant {cs ts : List Char}
    (h : List.Forall₂ (fun c t => c = t ∨ c = t.toUpper ∨ c = t.toLower) cs ts) :
    cs.map Char.toLower = ts.map Char.toLower := by
  induction h with
  | nil => rfl
  | cons hc _ ih =>
    simp only [List.map_cons, ih, List.cons.injEq, and_true]
    rcases hc with rfl | rfl | rfl
    · rfl
    · exact toLower_toUpper _
    · exact toLower_toLower _

theorem toLowerCase_of_caseVariant {text title : String} (h : CaseVariant text title) :
    toLowerCase text = toLowerCase title := by
  unfold toLowerCase
  rw [map_toLower_of_caseVariant h]

theorem toLowerCase_append_space_ne (title : String) :
    toLowerCase (title ++ " ") ≠ toLowerCase title := by
  intro h
  have hlen := congrArg (fun t : String => t.data.length) h
  simp [toLowerCase, String.data_append] at hlen

/-! ## Top 10: lemmas -/

theorem breakIndex_eq_some {pts : Int} {l : List Entry} {k i : Nat}
    (h : breakIndex pts l k = some i) :
    ∃ pre e post, l = pre ++ e :: post ∧ i = k + pre.length ∧
      (∀ x ∈ pre, pts ≤ x.points) ∧ e.points < pts := by
  induction l generalizing k with
  | nil => simp [breakIndex] at h
  | cons e more ih =>
    simp only [breakIndex] at h
    by_cases hgt : pts > e.points
    · simp only [hgt, if_true, Option.some.injEq] at h
      exact ⟨[], e, more, rfl, by simp [h], by simp, hgt⟩
    · simp only [hgt, if_false] at h
      obtain ⟨pre, e1, post, hl, hi, hpre, he⟩ := ih h
      refine ⟨e :: pre, e1, post, by simp [hl], by simp only [List.length_cons]; omega, ?_, he⟩
      intro x hx
      rcases List.mem_cons.mp hx with rfl | hx
      · exact not_lt.mp hgt
      · exact hpre x hx

theorem breakIndex_eq_none {pts : Int} {l : List Entry} {k : Nat} :
    breakIndex pts l k = none ↔ ∀ x ∈ l, pts ≤ x.points := by
  induction l generalizing k with
  | nil => simp [breakIndex]
  | cons e more ih =>
    simp only [breakIndex, List.mem_cons, forall_eq_or_imp]
    by_cases hgt : pts > e.points
    · simp only [hgt, if_true]
      constructor
      · intro h; cases h
      · intro h; exact absurd h.1 (not_le.mpr hgt)
    · simp only [hgt, if_false, ih]
      exact ⟨fun h => ⟨not_lt.mp hgt, h⟩, fun h => h.2⟩

theorem breakIndex_of_first_lower {pts : Int} (pre : List Entry) (e : Entry)
    (post : List Entry) (k : Nat) (hpre : ∀ x ∈ pre, pts ≤ x.points) (he : e.points < pts) :
    breakIndex pts (pre ++ e :: post) k = some (k + pre.length) := by
  induction pre generalizing k with
  | nil => simp [breakIndex, he]
  | cons x rest ih =>
    have hx : ¬ pts > x.points := not_lt.mpr (hpre x (List.mem_cons_self _ _))
    have hrec := ih (k + 1) (fun y hy => hpre y (List.mem_cons_of_mem _ hy))
    rw [List.cons_append]
    simp only [breakIndex, hx, if_false, List.length_cons, hrec, Option.some.injEq]
    omega

theorem breakIndex_of_index {pts : Int} {l : List Entry} {i : Nat} (hi : i < l.length)
    (hlow : l[i].points < pts) (hbefore : ∀ j (hj : j < i), pts ≤ l[j].points) :
    breakIndex pts l 0 = some i := by
  have hsplit : l = l.take i ++ l[i] :: l.drop (i + 1) := by
    rw [← List.drop_eq_getElem_cons hi, List.take_append_drop]
  have hpre : ∀ x ∈ l.take i, pts ≤ x.points := by
    intro x hx
    obtain ⟨j, hj, rfl⟩ := List.mem_iff_getElem.mp hx
    have hji : j < i := by
      have := List.length_take_le i l
      omega
    rw [List.getElem_take]
    exact hbefore j hji
  have hmain := breakIndex_of_first_lower (l.take i) l[i] (l.drop (i + 1)) 0 hpre hlow
  rw [← hsplit] at hmain
  rw [hmain, List.length_take]
  congr 1
  omega

theorem splice_append_cons (pre post : List Entry) (e entry : Entry) :
    splice (pre ++ e :: post) pre.length entry = pre ++ entry :: e :: post := by
  simp [splice]

theorem updateTopScores_of_break {file : Option (List Entry)} {name : String} {pts : Int}
    {i : Nat} (h : breakIndex pts (loadTopScores file) 0 = some i) :
    updateTopScores file name pts =
      { returned := (splice (loadTopScores file) i { name := name, points := pts }).take 10,
        file := some ((splice (loadTopScores file) i { name := name, points := pts }).take 10),
        effects := [Effect.writeFile
          ((splice (loadTopScores file) i { name := name, points := pts }).take 10)] } := by
  simp [updateTopScores, h]

theorem updateTopScores_of_push {file : Option (List Entry)} {name : String} {pts : Int}
    (h : breakIndex pts (loadTopScores file) 0 = none)
    (hlen : (loadTopScores file).length < 10) :
    updateTopScores file name pts =
      { returned := (loadTopScores file ++ [({ name := name, points := pts } : Entry)]).take 10,
        file := some ((loadTopScores file ++ [({ name := name, points := pts } : Entry)]).take 10),
        effects := [Effect.writeFile
          ((loadTopScores file ++ [({ name := name, points := pts } : Entry)]).take 10)] } := by
  simp [updateTopScores, h, hlen]

theorem updateTopScores_of_drop {file : Option (List Entry)} {name : String} {pts : Int}
    (h : breakIndex pts (loadTopScores file) 0 = none)
    (hlen : ¬ (loadTopScores file).length < 10) :
    updateTopScores file name pts =
      { returned := (loadTopScores file).take 10, file := file, effects := [] } := by
  simp [updateTopScores, h, hlen]

theorem sortedByPoints_splice {pts : Int} {l : List Entry} {i : Nat} (name : String)
    (hs : SortedByPoints l) (h : breakIndex pts l 0 = some i) :
    SortedByPoints (splice l i { name := name, points := pts }) := by
  obtain ⟨pre, e, post, hl, hi, hpre, he⟩ := breakIndex_eq_some h
  have hi1 : i = pre.length := by omega
  subst hl
  rw [hi1, splice_append_cons]
  unfold SortedByPoints at hs ⊢
  rw [List.pairwise_append] at hs ⊢
  obtain ⟨h1, h2, h3⟩ := hs
  refine ⟨h1, ?_, ?_⟩
  · rw [List.pairwise_cons]
    refine ⟨?_, h2⟩
    intro b hb
    rcases List.mem_cons.mp hb with rfl | hb
    · exact le_of_lt he
    · have := (List.pairwise_cons.mp h2).1 b hb
      simp only [ge_iff_le] at this ⊢
      omega
  · intro a ha b hb
    rcases List.mem_cons.mp hb with rfl | hb
    · exact hpre a ha
    · exact h3 a ha b hb

theorem sortedByPoints_push {pts : Int} {l : List Entry} (name : String)
    (hs : SortedByPoints l) (h : breakIndex pts l 0 = none) :
    SortedByPoints (l ++ [({ name := name, points := pts } : Entry)]) := by
  unfold SortedByPoints at hs ⊢
  rw [List.pairwise_append]
  refine ⟨hs, List.pairwise_singleton _ _, ?_⟩
  intro a ha b hb
  rw [List.mem_singleton] at hb
  subst hb
  exact breakIndex_eq_none.mp h a ha

theorem sortedByPoints_take {l : List Entry} (n : Nat) (hs : SortedByPoints l) :
    SortedByPoints (l.take n) :=
  List.Pairwise.sublist (List.take_sublist n l) hs

/-! ## Claims -/

/-- C1: the claim is that in every reachable state every session has
`hintLevel ≤ 4` and `roundIndex ≤ 4`. The handler of `skip song` has no check
of the current song: after `registerPlayer` and five `skip song` the session has
`roundIndex = 5`, so the bound on `roundIndex` does not hold in every reachable
state. -/
theorem skipSong_roundIndex_past_catalog :
    (run (initial none)
        [("a", Input.registerPlayer "ana"), ("a", Input.skipSong), ("a", Input.skipSong),
         ("a", Input.skipSong), ("a", Input.skipSong), ("a", Input.skipSong)]).map
      (fun s => getPlayer s.players "a")
      = some (some { name := "ana", points := 0, guessed := false, hintLevel := 1,
                     roundIndex := 5 })
    ∧ ¬ ∀ s, Reachable s → HintInBounds s ∧ RoundInBounds s := by
  refine ⟨by decide, ?_⟩
  intro h
  have hrun : run (initial none)
      [("a", Input.registerPlayer "ana"), ("a", Input.skipSong), ("a", Input.skipSong),
       ("a", Input.skipSong), ("a", Input.skipSong), ("a", Input.skipSong)]
      = some { players := [("a", { name := "ana", points := 0, guessed := false,
                                   hintLevel := 1, roundIndex := 5 })],
               file := some [{ name := "ana", points := 0 }, { name := "ana", points := 0 }] } := by
    decide
  have hb := (h _ ((Reachable.start none).run _ hrun)).2 "a"
    { name := "ana", points := 0, guessed := false, hintLevel := 1, roundIndex := 5 } (by decide)
  simp [songs] at hb

/-- The four player actions do nothing when the calling socket has no session. -/
theorem actions_noop_without_session (s : State) (id : SocketId) (text : String)
    (h : getPlayer s.players id = none) :
    playSnippet s id = (s, []) ∧ requestHint s id = (s, []) ∧
      guess s id text = some (s, []) ∧ skipSong s id = (s, []) := by
  simp [playSnippet, requestHint, guess, skipSong, h]

/-- The handlers of `play snippet` and `guess` do nothing when the session's
`roundIndex` has no song. -/
theorem playSnippet_guess_noop_without_song (s : State) (id : SocketId) (text : String)
    (player : Player) (h : getPlayer s.players id = some player)
    (hsong : songs[player.roundIndex]? = none) :
    playSnippet s id = (s, []) ∧ guess s id text = some (s, []) := by
  simp [playSnippet, guess, h, hsong]

/-- C2: the claim is that `play snippet`, `request hint`, `guess` and
`skip song` do nothing when the session is absent or its `roundIndex` has no
song. In `finishedState` (reachable, `roundIndex = 4`, no song at index 4)
`request hint` raises `hintLevel` from 1 to 2 and emits `new hint`, and
`skip song` raises `roundIndex` to 5, writes the top 10 again and emits three
events. -/
theorem requestHint_skipSong_act_without_song :
    Reachable finishedState
    ∧ getPlayer finishedState.players "a"
        = some { name := "ana", points := 0, guessed := false, hintLevel := 1, roundIndex := 4 }
    ∧ songs[4]? = none
    ∧ requestHint finishedState "a" =
        ({ players := [("a", { name := "ana", points := 0, guessed := false, hintLevel := 2,
                               roundIndex := 4 })],
           file := some [{ name := "ana", points := 0 }] },
         [Effect.emit "a" (Event.newHint (some 2) false)])
    ∧ skipSong finishedState "a" =
        ({ players := [("a", { name := "ana", points := 0, guessed := false, hintLevel := 1,
                               roundIndex := 5 })],
           file := some [{ name := "ana", points := 0 }, { name := "ana", points := 0 }] },
         [Effect.writeFile [{ name := "ana", points := 0 }, { name := "ana", points := 0 }],
          Effect.emitAll (Event.topScores
            [{ name := "ana", points := 0 }, { name := "ana", points := 0 }]),
          Effect.emit "a" (Event.roundInfo (RoundInfo.terminado 0)),
          Effect.emitAll (Event.scoreboard
            [{ name := "ana", points := 0, guessed := false, hintLevel := 1,
               roundIndex := 5 }])]) := by
  refine ⟨?_, by decide, by decide, by decide, by decide⟩
  have hrun : run (initial none)
      [("a", Input.registerPlayer "ana"), ("a", Input.skipSong), ("a", Input.skipSong),
       ("a", Input.skipSong), ("a", Input.skipSong)] = some finishedState := by decide
  exact (Reachable.start none).run _ hrun

/-- C3: `updateTopScores` keeps the top 10 sorted and short. When the stored
list is in descending order of points and has at most 10 entries, the list it
returns, any list it writes and the list stored afterwards are in descending
order of points and have at most 10 entries, for every name and points. -/
theorem updateTopScores_sorted_top10 (file : Option (List Entry)) (name : String) (pts : Int)
    (hs : SortedByPoints (loadTopScores file)) (hl : (loadTopScores file).length ≤ 10) :
    (SortedByPoints (updateTopScores file name pts).returned
      ∧ (updateTopScores file name pts).returned.length ≤ 10)
    ∧ (∀ l, Effect.writeFile l ∈ (updateTopScores file name pts).effects →
        SortedByPoints l ∧ l.length ≤ 10)
    ∧ (SortedByPoints (loadTopScores (updateTopScores file name pts).file)
      ∧ (loadTopScores (updateTopScores file name pts).file).length ≤ 10) := by
  cases hb : breakIndex pts (loadTopScores file) 0 with
  | some i =>
    have hsorted := sortedByPoints_take 10 (sortedByPoints_splice name hs hb)
    rw [updateTopScores_of_break hb]
    refine ⟨⟨hsorted, List.length_take_le _ _⟩, ?_, hsorted, List.length_take_le _ _⟩
    intro l hmem
    rw [List.mem_singleton] at hmem
    cases hmem
    exact ⟨hsorted, List.length_take_le _ _⟩
  | none =>
    by_cases hlen : (loadTopScores file).length < 10
    · have hsorted := sortedByPoints_take 10 (sortedByPoints_push name hs hb)
      rw [updateTopScores_of_push hb hlen]
      refine ⟨⟨hsorted, List.length_take_le _ _⟩, ?_, hsorted, List.length_take_le _ _⟩
      intro l hmem
      rw [List.mem_singleton] at hmem
      cases hmem
      exact ⟨hsorted, List.length_take_le _ _⟩
    · rw [updateTopScores_of_drop hb hlen]
      refine ⟨⟨sortedByPoints_take 10 hs, List.length_take_le _ _⟩, ?_, hs, hl⟩
      intro l hmem
      simp at hmem

theorem updateTopScores_sorted_top10_witness :
    (SortedByPoints (loadTopScores (some fullTop)) ∧ (loadTopScores (some fullTop)).length ≤ 10)
    ∧ (SortedByPoints (updateTopScores (some fullTop) "ana" 100).returned
      ∧ (updateTopScores (some fullTop) "ana" 100).returned.length ≤ 10)
    ∧ (∀ l, Effect.writeFile l ∈ (updateTopScores (some fullTop) "ana" 100).effects →
        SortedByPoints l ∧ l.length ≤ 10) :=
  have claim := updateTopScores_sorted_top10 (some fullTop) "ana" 100 (by decide) (by decide)
  ⟨⟨by decide, by decide⟩, claim.1, claim.2.1⟩

/-- The handler of `guess` on a session whose song exists and whose hint level
is inside `hintPoints`, when the texts match. -/
theorem guess_of_match {s : State} {id : SocketId} {text : String} {player : Player}
    {song : Song} {awarded : Int} (hp : getPlayer s.players id = some player)
    (hs : songs[player.roundIndex]? = some song)
    (hh : hintPoints[player.hintLevel]? = some awarded)
    (hm : toLowerCase text = toLowerCase song.title) :
    guess s id text =
      some ({ players := setPlayer s.players id
                { player with points := player.points + awarded,
                              roundIndex := player.roundIndex + 1, hintLevel := 1 },
              file := (updateTopScores s.file player.name (player.points + awarded)).file },
        (updateTopScores s.file player.name (player.points + awarded)).effects ++
          [Effect.emitAll (Event.topScores
              (updateTopScores s.file player.name (player.points + awarded)).returned),
           Effect.emit id (Event.roundInfo RoundInfo.acertado),
           updateScoreboard (setPlayer s.players id
              { player with points := player.points + awarded })] ++
          guessTail id { player with points := player.points + awarded,
                                     roundIndex := player.roundIndex + 1, hintLevel := 1 }) := by
  simp [guess, hp, hs, hh, hm]

/-- The handler of `guess` on a session whose song exists, when the texts differ. -/
theorem guess_of_mismatch {s : State} {id : SocketId} {text : String} {player : Player}
    {song : Song} (hp : getPlayer s.players id = some player)
    (hs : songs[player.roundIndex]? = some song)
    (hm : toLowerCase text ≠ toLowerCase song.title) :
    guess s id text = some (s, [Effect.emit id Event.wrongGuess]) := by
  simp [guess, hp, hs, hm]

theorem hintPoints_of_hintInBounds {s : State} {id : SocketId} {player : Player}
    (h : HintInBounds s) (hp : getPlayer s.players id = some player) :
    ∃ awarded, hintPoints[player.hintLevel]? = some awarded := by
  have hb := h id player hp
  have hlen : player.hintLevel < hintPoints.length := by
    simp only [hintDurations, hintPoints, List.length_cons, List.length_nil] at hb ⊢
    omega
  exact ⟨hintPoints[player.hintLevel], List.getElem?_eq_getElem hlen⟩

/-- C4: in a reachable state, for a session whose current song exists, a guess
succeeds exactly when the guess and the title are equal after `toLowerCase`,
and it is answered with the single event `wrong guess` exactly when they are
not; every letter-case variant of the title succeeds, and the title followed
by a space is a wrong guess. -/
theorem guess_succeeds_iff_lowercase_eq (s : State) (id : SocketId) (text : String)
    (player : Player) (song : Song) (hr : Reachable s)
    (hp : getPlayer s.players id = some player)
    (hs : songs[player.roundIndex]? = some song) :
    (guessSucceeds s id text = true ↔ toLowerCase text = toLowerCase song.title)
    ∧ (guess s id text = some (s, [Effect.emit id Event.wrongGuess]) ↔
        toLowerCase text ≠ toLowerCase song.title)
    ∧ (CaseVariant text song.title → guessSucceeds s id text = true)
    ∧ guess s id (song.title ++ " ") = some (s, [Effect.emit id Event.wrongGuess]) := by
  obtain ⟨awarded, hh⟩ := hintPoints_of_hintInBounds hr.hintInBounds hp
  have hyes : ∀ t, toLowerCase t = toLowerCase song.title → guessSucceeds s id t = true := by
    intro t hm
    simp [guessSucceeds, guess_of_match hp hs hh hm]
  have hno : ∀ t, toLowerCase t ≠ toLowerCase song.title → guessSucceeds s id t = false := by
    intro t hm
    simp [guessSucceeds, guess_of_mismatch hp hs hm]
  refine ⟨⟨?_, hyes text⟩, ⟨?_, guess_of_mismatch hp hs⟩, ?_, ?_⟩
  · intro h
    by_contra hm
    rw [hno text hm] at h
    cases h
  · intro h hm
    have h1 := hyes text hm
    simp [guessSucceeds, h] at h1
  · intro hv
    exact hyes text (toLowerCase_of_caseVariant hv)
  · exact guess_of_mismatch hp hs (toLowerCase_append_space_ne song.title)


theorem firstHintState_reachable : Reachable firstHintState := by
  have hrun : run (initial none) [("a", Input.registerPlayer "ana"), ("a", Input.requestHint)]
      = some firstHintState := by decide
  exact (Reachable.start none).run _ hrun

theorem caseVariant_example : CaseVariant "BILLIE JEAN" "Billie jean" := by
  unfold CaseVariant
  repeat (first | exact List.Forall₂.nil | refine List.Forall₂.cons (by decide) ?_)

theorem guess_succeeds_iff_lowercase_eq_witness :
    Reachable firstHintState
    ∧ CaseVariant "BILLIE JEAN" "Billie jean"
    ∧ guessSucceeds firstHintState "a" "BILLIE JEAN" = true
    ∧ guessSucceeds firstHintState "a" "billie jean" = true
    ∧ guessSucceeds firstHintState "a" "Billie Jean" = true
    ∧ guess firstHintState "a" "Billie Jean " =
        some (firstHintState, [Effect.emit "a" Event.wrongGuess])
    ∧ guess firstHintState "a" "Billie jean " =
        some (firstHintState, [Effect.emit "a" Event.wrongGuess]) :=
  have claim := fun text =>
    guess_succeeds_iff_lowercase_eq firstHintState "a" text
      { name := "ana", points := 0, guessed := false, hintLevel := 1, roundIndex := 0 }
      { url := "/songs/song1.mp3", title := "Billie jean" }
      firstHintState_reachable (by decide) (by decide)
  ⟨firstHintState_reachable, caseVariant_example,
    (claim "BILLIE JEAN").2.2.1 caseVariant_example,
    (claim "billie jean").1.mpr (by decide),
    (claim "Billie Jean").1.mpr (by decide),
    (claim "Billie Jean ").2.1.mpr (by decide),
    (claim "").2.2.2⟩


/-- C5: a correct guess by a session with hint level `h` inside `hintPoints`
on round `r < 4` returns, adds exactly `hintPoints[h]` to the points of the
session, sets `roundIndex` to `r + 1` and `hintLevel` to 1, and leaves the
name and `guessed` as they were. -/
theorem guess_correct_awards_and_advances (s : State) (id : SocketId) (text : String)
    (player : Player) (hp : getPlayer s.players id = some player)
    (hr : player.roundIndex < songs.length)
    (hh : player.hintLevel < hintPoints.length)
    (hm : toLowerCase text = toLowerCase (songs[player.roundIndex]).title) :
    ∃ s1 out, guess s id text = some (s1, out) ∧
      getPlayer s1.players id =
        some { name := player.name,
               points := player.points + hintPoints[player.hintLevel],
               guessed := player.guessed,
               hintLevel := 1,
               roundIndex := player.roundIndex + 1 } := by
  have hs : songs[player.roundIndex]? = some (songs[player.roundIndex]) :=
    List.getElem?_eq_getElem hr
  have hpts : hintPoints[player.hintLevel]? = some (hintPoints[player.hintLevel]) :=
    List.getElem?_eq_getElem hh
  exact ⟨_, _, guess_of_match hp hs hpts hm, getPlayer_setPlayer_self _ _ _⟩

theorem guess_correct_awards_and_advances_witness :
    getPlayer firstHintState.players "a"
        = some { name := "ana", points := 0, guessed := false, hintLevel := 1, roundIndex := 0 }
    ∧ ∃ s1 out, guess firstHintState "a" "Billie jean" = some (s1, out) ∧
        getPlayer s1.players "a" =
          some { name := "ana", points := 100, guessed := false, hintLevel := 1,
                 roundIndex := 1 } :=
  ⟨by decide,
    guess_correct_awards_and_advances firstHintState "a" "Billie jean"
      { name := "ana", points := 0, guessed := false, hintLevel := 1, roundIndex := 0 }
      (by decide) (by decide) (by decide) (by decide)⟩

/-- C6: a guess that does not match changes nothing. For a session whose
current song exists, when the guess and the title differ after `toLowerCase`,
the state after the handler is the state before it (every session and the
top-10 file), and the only effect is one `wrong guess` to the caller: no write
and no other event. -/
theorem guess_wrong_changes_nothing (s : State) (id : SocketId) (text : String)
    (player : Player) (song : Song) (hp : getPlayer s.players id = some player)
    (hs : songs[player.roundIndex]? = some song)
    (hm : toLowerCase text ≠ toLowerCase song.title) :
    guess s id text = some (s, [Effect.emit id Event.wrongGuess]) :=
  guess_of_mismatch hp hs hm

theorem guess_wrong_changes_nothing_witness :
    toLowerCase "Thriller" ≠ toLowerCase "Billie jean"
    ∧ guess firstHintState "a" "Thriller" =
        some (firstHintState, [Effect.emit "a" Event.wrongGuess]) :=
  ⟨by decide,
    guess_wrong_changes_nothing firstHintState "a" "Thriller"
      { name := "ana", points := 0, guessed := false, hintLevel := 1, roundIndex := 0 }
      { url := "/songs/song1.mp3", title := "Billie jean" }
      (by decide) (by decide) (by decide)⟩

/-- The handler of `request hint` below the last level. -/
theorem requestHint_of_lt {s : State} {id : SocketId} {player : Player}
    (hp : getPlayer s.players id = some player) (h : player.hintLevel < 4) :
    requestHint s id =
      ({ players := setPlayer s.players id
            { player with hintLevel := player.hintLevel + 1 },
         file := s.file },
        [Effect.emit id (Event.newHint hintDurations[player.hintLevel + 1]? false)]) := by
  simp [requestHint, hp, hintDurations, h]

/-- The handler of `request hint` at the last level or past it. -/
theorem requestHint_of_ge {s : State} {id : SocketId} {player : Player}
    (hp : getPlayer s.players id = some player) (h : ¬ player.hintLevel < 4) :
    requestHint s id =
      (s, [Effect.emit id (Event.newHint hintDurations[player.hintLevel]? true)]) := by
  simp [requestHint, hp, hintDurations, h]

theorem getPlayer_requestHintTimes (s : State) (id : SocketId) (player : Player)
    (hp : getPlayer s.players id = some player) (n : Nat) :
    getPlayer (requestHintTimes s id n).players id =
      some { player with hintLevel :=
        if player.hintLevel < 4 then min (player.hintLevel + n) 4 else player.hintLevel } := by
  induction n with
  | zero =>
    simp only [requestHintTimes, hp, Option.some.injEq, Nat.add_zero]
    split
    · rw [min_eq_left (by omega)]
    · rfl
  | succ k ih =>
    simp only [requestHintTimes]
    by_cases hlt : player.hintLevel < 4
    · simp only [hlt, if_true] at ih ⊢
      by_cases hk : min (player.hintLevel + k) 4 < 4
      · rw [requestHint_of_lt ih hk, getPlayer_setPlayer_self]
        have h1 : min (player.hintLevel + k) 4 = player.hintLevel + k := by omega
        have h2 : min (player.hintLevel + (k + 1)) 4 = player.hintLevel + k + 1 := by omega
        simp only [h1, h2]
      · rw [requestHint_of_ge ih hk, ih]
        have h1 : min (player.hintLevel + k) 4 = 4 := by omega
        have h2 : min (player.hintLevel + (k + 1)) 4 = 4 := by omega
        simp only [h1, h2]
    · simp only [hlt, if_false] at ih ⊢
      rw [requestHint_of_ge ih hlt, ih]

/-- C7: `request hint` saturates at level 4. For a session with
`hintLevel < 4` it raises `hintLevel` by one, touches nothing else and emits
`new hint` with `hintDurations` at the new level and `false`; for a session
with `hintLevel = 4` it changes nothing and emits `new hint` with 8 and `true`.
After `n` consecutive requests from `hintLevel = 0` the level is `min n 4`, and
from the fourth request on every further request emits 8 and `true`. -/
theorem requestHint_saturates (s : State) (id : SocketId) (player : Player)
    (hp : getPlayer s.players id = some player) :
    (player.hintLevel < 4 →
      getPlayer (requestHint s id).1.players id
          = some { player with hintLevel := player.hintLevel + 1 }
      ∧ (∀ other, other ≠ id →
          getPlayer (requestHint s id).1.players other = getPlayer s.players other)
      ∧ (requestHint s id).1.file = s.file
      ∧ (requestHint s id).2
          = [Effect.emit id (Event.newHint
              (some (hintDurations.getD (player.hintLevel + 1) 0)) false)])
    ∧ (player.hintLevel = 4 →
        requestHint s id = (s, [Effect.emit id (Event.newHint (some 8) true)]))
    ∧ (player.hintLevel = 0 → ∀ n,
        getPlayer (requestHintTimes s id n).players id
            = some { player with hintLevel := min n 4 }
        ∧ (4 ≤ n → requestHint (requestHintTimes s id n) id =
            (requestHintTimes s id n,
              [Effect.emit id (Event.newHint (some 8) true)]))) := by
  refine ⟨?_, ?_, ?_⟩
  · intro hlt
    rw [requestHint_of_lt hp hlt]
    refine ⟨getPlayer_setPlayer_self _ _ _, ?_, rfl, ?_⟩
    · intro other ho
      exact getPlayer_setPlayer_other _ _ _ _ ho
    · have hlen : player.hintLevel + 1 < hintDurations.length := by
        simp only [hintDurations, List.length_cons, List.length_nil]; omega
      simp only [List.getElem?_eq_getElem hlen, List.getD_eq_getElem _ _ hlen]
  · intro h4
    rw [requestHint_of_ge hp (by omega), h4]
    rfl
  · intro h0 n
    have hget := getPlayer_requestHintTimes s id player hp n
    simp only [h0, Nat.zero_add, Nat.lt_add_one, Nat.ofNat_pos, if_true] at hget
    refine ⟨hget, ?_⟩
    intro hn
    rw [requestHint_of_ge hget (by simp only; omega)]
    have h4 : min n 4 = 4 := by omega
    simp only [h4]
    rfl

theorem requestHint_saturates_witness :
    getPlayer (requestHint firstHintState "a").1.players "a"
        = some { name := "ana", points := 0, guessed := false, hintLevel := 2, roundIndex := 0 }
    ∧ (requestHint firstHintState "a").2 = [Effect.emit "a" (Event.newHint (some 2) false)]
    ∧ getPlayer (requestHintTimes (registerPlayer (initial none) "a" "ana").1 "a" 6).players "a"
        = some { name := "ana", points := 0, guessed := false, hintLevel := 4, roundIndex := 0 } :=
  have below := (requestHint_saturates firstHintState "a"
    { name := "ana", points := 0, guessed := false, hintLevel := 1, roundIndex := 0 }
    (by decide)).1 (by decide)
  have repeated := (requestHint_saturates (registerPlayer (initial none) "a" "ana").1 "a"
    { name := "ana", points := 0, guessed := false, hintLevel := 0, roundIndex := 0 }
    (by decide)).2.2 rfl 6
  ⟨below.1, below.2.2.2, repeated.1⟩


/-- The handler of `skip song` on a session that exists. -/
theorem skipSong_of_player {s : State} {id : SocketId} {player : Player}
    (hp : getPlayer s.players id = some player) :
    skipSong s id =
      match songs[player.roundIndex + 1]? with
      | some _ =>
        ({ players := setPlayer s.players id
              { player with roundIndex := player.roundIndex + 1, hintLevel := 1 },
           file := s.file },
          [Effect.emit id (Event.roundInfo RoundInfo.siguiente),
           Effect.emit id (Event.newHint (some 1) false),
           updateScoreboard (setPlayer s.players id
              { player with roundIndex := player.roundIndex + 1, hintLevel := 1 })])
      | none =>
        ({ players := setPlayer s.players id
              { player with roundIndex := player.roundIndex + 1, hintLevel := 1 },
           file := (updateTopScores s.file player.name player.points).file },
          (updateTopScores s.file player.name player.points).effects ++
            [Effect.emitAll (Event.topScores
                (updateTopScores s.file player.name player.points).returned),
             Effect.emit id (Event.roundInfo (RoundInfo.terminado player.points)),
             updateScoreboard (setPlayer s.players id
                { player with roundIndex := player.roundIndex + 1, hintLevel := 1 })]) := by
  simp only [skipSong, hp]

/-- C8, as the claim states it, fails in `finishedState`: the session has
`roundIndex = 4`, so `roundIndex + 1` is not the catalog length, and still
`skip song` does not send the round-advance notice and `new hint`: it writes
the top 10, broadcasts `topScores` and sends the finished notice. -/
theorem skipSong_past_catalog_sends_finished :
    getPlayer finishedState.players "a"
        = some { name := "ana", points := 0, guessed := false, hintLevel := 1, roundIndex := 4 }
    ∧ 4 + 1 ≠ songs.length
    ∧ Effect.emit "a" (Event.roundInfo RoundInfo.siguiente) ∉ (skipSong finishedState "a").2
    ∧ Effect.emit "a" (Event.newHint (some 1) false) ∉ (skipSong finishedState "a").2
    ∧ Effect.emit "a" (Event.roundInfo (RoundInfo.terminado 0)) ∈ (skipSong finishedState "a").2
    ∧ Effect.writeFile [{ name := "ana", points := 0 }, { name := "ana", points := 0 }]
        ∈ (skipSong finishedState "a").2 := by
  decide

/-- C8, amended: `skip song` on a session whose current song exists (round
index `r < 4`) sets `roundIndex` to `r + 1` and `hintLevel` to 1 and leaves the
name, the points and every other session as they were. If `r + 1` is the
catalog length it runs `updateTopScores` with the name and points of the
session, broadcasts `topScores` with the list returned and sends the finished
notice; otherwise it leaves the top-10 file alone and sends the round-advance
notice and `new hint` (1, false). In both cases the last effect is the
broadcast of the scoreboard of the new registry. -/
theorem skipSong_advances_without_points (s : State) (id : SocketId) (player : Player)
    (hp : getPlayer s.players id = some player) (hr : player.roundIndex < songs.length) :
    getPlayer (skipSong s id).1.players id
        = some { player with roundIndex := player.roundIndex + 1, hintLevel := 1 }
    ∧ (∀ other, other ≠ id →
        getPlayer (skipSong s id).1.players other = getPlayer s.players other)
    ∧ (player.roundIndex + 1 = songs.length →
        (skipSong s id).1.file = (updateTopScores s.file player.name player.points).file
        ∧ (skipSong s id).2 =
            (updateTopScores s.file player.name player.points).effects ++
              [Effect.emitAll (Event.topScores
                  (updateTopScores s.file player.name player.points).returned),
               Effect.emit id (Event.roundInfo (RoundInfo.terminado player.points)),
               updateScoreboard (skipSong s id).1.players])
    ∧ (player.roundIndex + 1 ≠ songs.length →
        (skipSong s id).1.file = s.file
        ∧ (skipSong s id).2 =
            [Effect.emit id (Event.roundInfo RoundInfo.siguiente),
             Effect.emit id (Event.newHint (some 1) false),
             updateScoreboard (skipSong s id).1.players]) := by
  rw [skipSong_of_player hp]
  by_cases hlast : player.roundIndex + 1 = songs.length
  · have hnone : songs[player.roundIndex + 1]? = none := by
      rw [List.getElem?_eq_none_iff]; omega
    rw [hnone]
    refine ⟨getPlayer_setPlayer_self _ _ _, ?_, ?_, ?_⟩
    · intro other ho
      exact getPlayer_setPlayer_other _ _ _ _ ho
    · intro _
      exact ⟨rfl, rfl⟩
    · intro h
      exact absurd hlast h
  · have hlt : player.roundIndex + 1 < songs.length := by omega
    rw [List.getElem?_eq_getElem hlt]
    refine ⟨getPlayer_setPlayer_self _ _ _, ?_, ?_, ?_⟩
    · intro other ho
      exact getPlayer_setPlayer_other _ _ _ _ ho
    · intro h
      exact absurd h hlast
    · intro _
      exact ⟨rfl, rfl⟩

theorem skipSong_advances_without_points_witness :
    (getPlayer (skipSong firstHintState "a").1.players "a"
        = some { name := "ana", points := 0, guessed := false, hintLevel := 1, roundIndex := 1 }
      ∧ (skipSong firstHintState "a").2 =
        [Effect.emit "a" (Event.roundInfo RoundInfo.siguiente),
         Effect.emit "a" (Event.newHint (some 1) false),
         updateScoreboard (skipSong firstHintState "a").1.players])
    ∧ (getPlayer (skipSong lastSongState "a").1.players "a"
        = some { name := "ana", points := 0, guessed := false, hintLevel := 1, roundIndex := 4 }
      ∧ (skipSong lastSongState "a").2 =
        (updateTopScores none "ana" 0).effects ++
          [Effect.emitAll (Event.topScores (updateTopScores none "ana" 0).returned),
           Effect.emit "a" (Event.roundInfo (RoundInfo.terminado 0)),
           updateScoreboard (skipSong lastSongState "a").1.players]) :=
  have first := skipSong_advances_without_points firstHintState "a"
    { name := "ana", points := 0, guessed := false, hintLevel := 1, roundIndex := 0 }
    (by decide) (by decide)
  have last := skipSong_advances_without_points lastSongState "a"
    { name := "ana", points := 0, guessed := false, hintLevel := 1, roundIndex := 3 }
    (by decide) (by decide)
  ⟨⟨first.1, (first.2.2.2 (by decide)).2⟩, ⟨last.1, (last.2.2.1 (by decide)).2⟩⟩


/-- C9: `updateTopScores` puts the candidate at the first index whose entry
has points strictly below the candidate's, so that every entry with points at
least the candidate's, ties included, stays ahead of it; when there is no such
index and the stored list has fewer than 10 entries it puts the candidate at
the end. In both cases it returns the first 10 entries of that list. -/
theorem updateTopScores_inserts_at_first_lower (file : Option (List Entry))
    (stored : List Entry) (name : String) (pts : Int) (hfile : loadTopScores file = stored) :
    (∀ i (hi : i < stored.length), stored[i].points < pts →
        (∀ j (hj : j < i), pts ≤ stored[j].points) →
        (updateTopScores file name pts).returned =
          (stored.take i ++ { name := name, points := pts } :: stored.drop i).take 10)
    ∧ ((∀ e ∈ stored, pts ≤ e.points) → stored.length < 10 →
        (updateTopScores file name pts).returned =
          (stored ++ [({ name := name, points := pts } : Entry)]).take 10) := by
  subst hfile
  constructor
  · intro i hi hlow hbefore
    rw [updateTopScores_of_break (breakIndex_of_index hi hlow hbefore)]
    rfl
  · intro hall hlen
    rw [updateTopScores_of_push (breakIndex_eq_none.mpr hall) hlen]

theorem updateTopScores_inserts_at_first_lower_witness :
    (updateTopScores (some fullTop) "ana" 100).returned =
        [ { name := "p1", points := 400 }, { name := "p2", points := 375 },
          { name := "p3", points := 350 }, { name := "p4", points := 300 },
          { name := "p5", points := 275 }, { name := "p6", points := 200 },
          { name := "p7", points := 175 }, { name := "p8", points := 100 },
          { name := "p9", points := 100 }, { name := "ana", points := 100 } ]
    ∧ (updateTopScores none "ana" 0).returned = [{ name := "ana", points := 0 }] :=
  ⟨(updateTopScores_inserts_at_first_lower (some fullTop) fullTop "ana" 100 rfl).1 9
      (by decide) (by decide) (by decide),
    (updateTopScores_inserts_at_first_lower none [] "ana" 0 rfl).2 (by decide) (by decide)⟩

/-- C10: when the stored top 10 has 10 entries and the candidate's points are
greater than none of them, `updateTopScores` returns the stored list as it is,
writes nothing and leaves the file as it was. -/
theorem updateTopScores_full_and_low_is_dropped (file : Option (List Entry))
    (stored : List Entry) (name : String) (pts : Int) (hfile : loadTopScores file = stored)
    (hfull : stored.length = 10) (hlow : ∀ e ∈ stored, ¬ pts > e.points) :
    (updateTopScores file name pts).returned = stored
    ∧ (updateTopScores file name pts).effects = []
    ∧ (updateTopScores file name pts).file = file := by
  subst hfile
  have hnone : breakIndex pts (loadTopScores file) 0 = none :=
    breakIndex_eq_none.mpr (fun e he => not_lt.mp (hlow e he))
  rw [updateTopScores_of_drop hnone (by omega)]
  exact ⟨List.take_of_length_le (by omega), rfl, rfl⟩

theorem updateTopScores_full_and_low_is_dropped_witness :
    fullTop.length = 10
    ∧ (∀ e ∈ fullTop, ¬ (75 : Int) > e.points)
    ∧ (updateTopScores (some fullTop) "ana" 75).returned = fullTop
    ∧ (updateTopScores (some fullTop) "ana" 75).effects = []
    ∧ (updateTopScores (some fullTop) "ana" 75).file = some fullTop :=
  ⟨by decide, by decide,
    updateTopScores_full_and_low_is_dropped (some fullTop) fullTop "ana" 75 rfl
      (by decide) (by decide)⟩

/-- C11: `updateTopScores` writes exactly when it inserted the candidate, that
is when some stored entry has points strictly below the candidate's or the
stored list has fewer than 10 entries. When it writes, it writes once, the list
written is the list returned, and the file holds that list afterwards; when it
does not, the file is as before. -/
theorem updateTopScores_writes_iff_inserted (file : Option (List Entry))
    (stored : List Entry) (name : String) (pts : Int) (hfile : loadTopScores file = stored) :
    ((∃ l, Effect.writeFile l ∈ (updateTopScores file name pts).effects) ↔
        ((∃ e ∈ stored, e.points < pts) ∨ stored.length < 10))
    ∧ (((∃ e ∈ stored, e.points < pts) ∨ stored.length < 10) →
        (updateTopScores file name pts).effects =
            [Effect.writeFile (updateTopScores file name pts).returned]
        ∧ (updateTopScores file name pts).file = some (updateTopScores file name pts).returned)
    ∧ (¬ ((∃ e ∈ stored, e.points < pts) ∨ stored.length < 10) →
        (updateTopScores file name pts).effects = []
        ∧ (updateTopScores file name pts).file = file) := by
  subst hfile
  cases hb : breakIndex pts (loadTopScores file) 0 with
  | some i =>
    obtain ⟨pre, e, post, hl, -, -, he⟩ := breakIndex_eq_some hb
    have hcond : (∃ e ∈ loadTopScores file, e.points < pts) ∨ (loadTopScores file).length < 10 :=
      Or.inl ⟨e, by rw [hl]; simp, he⟩
    rw [updateTopScores_of_break hb]
    refine ⟨⟨fun _ => hcond, fun _ => ⟨_, List.mem_singleton.mpr rfl⟩⟩, fun _ => ⟨rfl, rfl⟩, ?_⟩
    intro hn
    exact absurd hcond hn
  | none =>
    have hall := breakIndex_eq_none.mp hb
    by_cases hlen : (loadTopScores file).length < 10
    · rw [updateTopScores_of_push hb hlen]
      refine ⟨⟨fun _ => Or.inr hlen, fun _ => ⟨_, List.mem_singleton.mpr rfl⟩⟩,
        fun _ => ⟨rfl, rfl⟩, ?_⟩
      intro hn
      exact absurd (Or.inr hlen) hn
    · have hcond : ¬ ((∃ e ∈ loadTopScores file, e.points < pts)
          ∨ (loadTopScores file).length < 10) := by
        rintro (⟨e, hmem, hlt⟩ | h)
        · exact absurd (hall e hmem) (not_le.mpr hlt)
        · exact hlen h
      rw [updateTopScores_of_drop hb hlen]
      refine ⟨⟨?_, fun h => absurd h hcond⟩, fun h => absurd h hcond, fun _ => ⟨rfl, rfl⟩⟩
      rintro ⟨l, hmem⟩
      simp at hmem

theorem updateTopScores_writes_iff_inserted_witness :
    (updateTopScores (some fullTop) "ana" 100).effects =
        [Effect.writeFile (updateTopScores (some fullTop) "ana" 100).returned]
    ∧ (updateTopScores (some fullTop) "ana" 75).effects = [] :=
  ⟨((updateTopScores_writes_iff_inserted (some fullTop) fullTop "ana" 100 rfl).2.1
      (Or.inl ⟨{ name := "p10", points := 75 }, by decide, by decide⟩)).1,
    ((updateTopScores_writes_iff_inserted (some fullTop) fullTop "ana" 75 rfl).2.2
      (by decide)).1⟩

/-! ## Scoreboard: lemmas -/

theorem filter_points_orderedInsert (q : Int) (a : Player) (l : List Player) :
    (List.orderedInsert (fun a b : Player => a.points ≥ b.points) a l).filter
        (fun p => decide (p.points = q))
      = (a :: l).filter (fun p => decide (p.points = q)) := by
  induction l with
  | nil => rfl
  | cons b rest ih =>
    by_cases hab : a.points ≥ b.points
    · simp only [List.orderedInsert, hab, if_true]
    · simp only [List.orderedInsert, hab, if_false]
      rw [List.filter_cons, ih]
      by_cases hb : b.points = q
      · have ha : ¬ a.points = q := by omega
        simp [List.filter_cons, hb, ha]
      · simp [List.filter_cons, hb]

theorem filter_points_insertionSort (q : Int) (l : List Player) :
    (List.insertionSort (fun a b : Player => a.points ≥ b.points) l).filter
        (fun p => decide (p.points = q))
      = l.filter (fun p => decide (p.points = q)) := by
  induction l with
  | nil => rfl
  | cons a rest ih =>
    rw [List.insertionSort, filter_points_orderedInsert, List.filter_cons, ih, List.filter_cons]

theorem tiedState_reachable : Reachable tiedState := by
  have hrun : run (initial none)
      [("a", Input.registerPlayer "ana"), ("b", Input.registerPlayer "leo"),
       ("a", Input.requestHint), ("a", Input.guess "Billie Jean"),
       ("b", Input.requestHint), ("b", Input.guess "billie jean")] = some tiedState := by
    decide
  exact (Reachable.start none).run _ hrun

/-- C12: the board sent by `updateScoreboard` is a permutation of the sessions
of the registry, in descending order of points, and stable: for every value of
points, the sessions with that many points appear in the board in the order of
the registry, which is the order of registration. In `tiedState`, where "ana"
registered before "leo" and both have 100 points, "ana" is listed first. -/
theorem updateScoreboard_sorted_stable (players : List (SocketId × Player)) :
    (∃ board, updateScoreboard players = Effect.emitAll (Event.scoreboard board)
      ∧ board.Perm (values players)
      ∧ board.Pairwise (fun a b => a.points ≥ b.points)
      ∧ ∀ q : Int, board.filter (fun p => decide (p.points = q))
          = (values players).filter (fun p => decide (p.points = q)))
    ∧ Reachable tiedState
    ∧ boardOf (updateScoreboard tiedState.players) =
        some [{ name := "ana", points := 100, guessed := false, hintLevel := 1, roundIndex := 1 },
              { name := "leo", points := 100, guessed := false, hintLevel := 1,
                roundIndex := 1 }] := by
  refine ⟨⟨_, rfl, List.perm_insertionSort _ _, List.sorted_insertionSort _ _, ?_⟩,
    tiedState_reachable, by decide⟩
  intro q
  exact filter_points_insertionSort q _

/-! ## One event: what it does to a session -/

/-- An inbound event from socket `c` leaves the session of every other socket
as it was. -/
theorem handle_getPlayer_other {s s1 : State} {c : SocketId} {input : Input}
    {out : List Effect} (h : handle s c input = some (s1, out)) {d : SocketId} (hd : d ≠ c) :
    getPlayer s1.players d = getPlayer s.players d := by
  cases input with
  | registerPlayer name =>
    simp only [handle, registerPlayer, Option.some.injEq, Prod.mk.injEq] at h
    obtain ⟨rfl, -⟩ := h
    exact getPlayer_setPlayer_other _ _ _ _ hd
  | chatMessage msg =>
    simp only [handle, chatMessage, Option.some.injEq, Prod.mk.injEq] at h
    obtain ⟨rfl, -⟩ := h
    rfl
  | playSnippet =>
    simp only [handle, playSnippet, Option.some.injEq] at h
    split at h
    · cases h; rfl
    · split at h <;> cases h <;> rfl
  | requestHint =>
    simp only [handle, requestHint, Option.some.injEq] at h
    split at h
    · cases h; rfl
    · split at h
      · cases h
        exact getPlayer_setPlayer_other _ _ _ _ hd
      · cases h; rfl
  | guess text =>
    simp only [handle, guess] at h
    split at h
    · cases h; rfl
    · split at h
      · cases h; rfl
      · split at h
        · cases h; rfl
        · split at h
          · cases h
          · cases h
            exact getPlayer_setPlayer_other _ _ _ _ hd
  | skipSong =>
    simp only [handle, skipSong, Option.some.injEq] at h
    split at h
    · cases h; rfl
    · split at h <;> cases h <;> exact getPlayer_setPlayer_other _ _ _ _ hd
  | disconnect =>
    simp only [handle, disconnect, Option.some.injEq, Prod.mk.injEq] at h
    obtain ⟨rfl, -⟩ := h
    exact getPlayer_deletePlayer_other _ _ _ hd

/-- What an inbound event from socket `c` does to the session of `c`: nothing,
or one of the five writes of the handlers. -/
theorem handle_getPlayer_self {s s1 : State} {c : SocketId} {input : Input}
    {out : List Effect} (h : handle s c input = some (s1, out)) :
    getPlayer s1.players c = getPlayer s.players c
    ∨ (∃ name, input = Input.registerPlayer name ∧
        getPlayer s1.players c =
          some { name := name, points := 0, guessed := false, hintLevel := 0, roundIndex := 0 })
    ∨ (input = Input.disconnect ∧ getPlayer s1.players c = none)
    ∨ (∃ p, getPlayer s.players c = some p ∧ input = Input.requestHint ∧
        p.hintLevel < hintDurations.length - 1 ∧
        getPlayer s1.players c = some { p with hintLevel := p.hintLevel + 1 })
    ∨ (∃ p text song awarded, getPlayer s.players c = some p ∧ input = Input.guess text ∧
        songs[p.roundIndex]? = some song ∧ hintPoints[p.hintLevel]? = some awarded ∧
        toLowerCase text = toLowerCase song.title ∧
        getPlayer s1.players c =
          some { p with points := p.points + awarded, roundIndex := p.roundIndex + 1,
                        hintLevel := 1 })
    ∨ (∃ p, getPlayer s.players c = some p ∧ input = Input.skipSong ∧
        getPlayer s1.players c =
          some { p with roundIndex := p.roundIndex + 1, hintLevel := 1 }) := by
  cases input with
  | registerPlayer name =>
    simp only [handle, registerPlayer, Option.some.injEq, Prod.mk.injEq] at h
    obtain ⟨rfl, -⟩ := h
    exact Or.inr (Or.inl ⟨name, rfl, getPlayer_setPlayer_self _ _ _⟩)
  | chatMessage msg =>
    simp only [handle, chatMessage, Option.some.injEq, Prod.mk.injEq] at h
    obtain ⟨rfl, -⟩ := h
    exact Or.inl rfl
  | playSnippet =>
    simp only [handle, playSnippet, Option.some.injEq] at h
    split at h
    · cases h; exact Or.inl rfl
    · split at h <;> cases h <;> exact Or.inl rfl
  | requestHint =>
    simp only [handle, requestHint, Option.some.injEq] at h
    split at h
    · cases h; exact Or.inl rfl
    · rename_i p hp
      split at h
      · rename_i hlt
        cases h
        exact Or.inr (Or.inr (Or.inr (Or.inl
          ⟨p, hp, rfl, hlt, getPlayer_setPlayer_self _ _ _⟩)))
      · cases h; exact Or.inl rfl
  | guess text =>
    simp only [handle, guess] at h
    split at h
    · cases h; exact Or.inl rfl
    · rename_i p hp
      split at h
      · cases h; exact Or.inl rfl
      · rename_i song hsong
        split at h
        · cases h; exact Or.inl rfl
        · rename_i hm
          split at h
          · cases h
          · rename_i awarded hh
            cases h
            exact Or.inr (Or.inr (Or.inr (Or.inr (Or.inl
              ⟨p, text, song, awarded, hp, rfl, hsong, hh, not_not.mp hm,
                getPlayer_setPlayer_self _ _ _⟩))))
  | skipSong =>
    simp only [handle, skipSong, Option.some.injEq] at h
    split at h
    · cases h; exact Or.inl rfl
    · rename_i p hp
      split at h <;> cases h <;>
        exact Or.inr (Or.inr (Or.inr (Or.inr (Or.inr
          ⟨p, hp, rfl, getPlayer_setPlayer_self _ _ _⟩))))
  | disconnect =>
    simp only [handle, disconnect, Option.some.injEq, Prod.mk.injEq] at h
    obtain ⟨rfl, -⟩ := h
    exact Or.inr (Or.inr (Or.inl ⟨rfl, getPlayer_deletePlayer_self _ _⟩))

/-- A property of sessions that holds for a fresh session and is kept by the
three writes of the handlers holds for every session of every reachable state. -/
theorem Reachable.forall_player (P : Player → Prop)
    (hfresh : ∀ name,
      P { name := name, points := 0, guessed := false, hintLevel := 0, roundIndex := 0 })
    (hhint : ∀ p, P p → p.hintLevel < hintDurations.length - 1 →
      P { p with hintLevel := p.hintLevel + 1 })
    (hguess : ∀ p song awarded, P p → songs[p.roundIndex]? = some song →
      hintPoints[p.hintLevel]? = some awarded →
      P { p with points := p.points + awarded, roundIndex := p.roundIndex + 1, hintLevel := 1 })
    (hskip : ∀ p, P p → P { p with roundIndex := p.roundIndex + 1, hintLevel := 1 })
    {s : State} (hs : Reachable s) :
    ∀ id player, getPlayer s.players id = some player → P player := by
  induction hs with
  | start file =>
    intro id player h
    simp [initial, getPlayer] at h
  | @step s s1 c input out _ hstep ih =>
    intro d player hget
    by_cases hd : d = c
    · subst hd
      rcases handle_getPlayer_self hstep with h | ⟨name, -, h⟩ | ⟨-, h⟩ | ⟨p, hp, -, hlt, h⟩
        | ⟨p, text, song, awarded, hp, -, hsong, hh, -, h⟩ | ⟨p, hp, -, h⟩
      · exact ih d player (h ▸ hget)
      · rw [h] at hget; cases hget; exact hfresh name
      · rw [h] at hget; cases hget
      · rw [h] at hget; cases hget; exact hhint p (ih d p hp) hlt
      · rw [h] at hget; cases hget; exact hguess p song awarded (ih d p hp) hsong hh
      · rw [h] at hget; cases hget; exact hskip p (ih d p hp)
    · rw [handle_getPlayer_other hstep hd] at hget
      exact ih d player hget

theorem hintPoints_bounds {h : Nat} {awarded : Int} (hh : hintPoints[h]? = some awarded) :
    0 ≤ awarded ∧ awarded ≤ 100 := by
  have hmem : awarded ∈ hintPoints := List.getElem?_mem hh
  simp only [hintPoints, List.mem_cons, List.mem_singleton, List.not_mem_nil, or_false] at hmem
  omega

theorem secondHintState_reachable : Reachable secondHintState := by
  have hrun : run (initial none)
      [("a", Input.registerPlayer "ana"), ("a", Input.requestHint), ("a", Input.requestHint)]
      = some secondHintState := by decide
  exact (Reachable.start none).run _ hrun

/-- C13: the claim is that on a correct guess the broadcast of the scoreboard
is the last event of the handler and carries the advanced session, as it does
in the handler of `skip song`. The handler of `guess` calls `updateScoreboard`
before `player.roundIndex++`: in `secondHintState`, on the correct guess
"Billie jean", the broadcast of the scoreboard is the fourth of six effects,
the last one is `new hint`, and the board carries the session with
`hintLevel = 2` and `roundIndex = 0` although the session ends with
`hintLevel = 1` and `roundIndex = 1`. -/
theorem guess_scoreboard_before_advance :
    Reachable secondHintState
    ∧ guess secondHintState "a" "Billie jean" =
        some ({ players := [("a", { name := "ana", points := 75, guessed := false,
                                    hintLevel := 1, roundIndex := 1 })],
                file := some [{ name := "ana", points := 75 }] },
          [Effect.writeFile [{ name := "ana", points := 75 }],
           Effect.emitAll (Event.topScores [{ name := "ana", points := 75 }]),
           Effect.emit "a" (Event.roundInfo RoundInfo.acertado),
           Effect.emitAll (Event.scoreboard
             [{ name := "ana", points := 75, guessed := false, hintLevel := 2,
                roundIndex := 0 }]),
           Effect.emit "a" (Event.roundInfo RoundInfo.siguiente),
           Effect.emit "a" (Event.newHint (some 1) false)])
    ∧ ((guess secondHintState "a" "Billie jean").bind
        (fun r => r.2.getLast?.bind boardOf)) = none := by
  exact ⟨secondHintState_reachable, by decide, by decide⟩

/-- The effects of a correct guess as the handler performs them: it returns,
and its effects are,
in this order: the write of `updateTopScores` if it inserted, the broadcast of
`topScores`, the notice "¡Has acertado!", the broadcast of the scoreboard, and
last the round-advance notice followed by `new hint` (1, false) when a next
song exists, or the finished notice with the new points when none does. The
scoreboard is the one of the registry in which the session has its new points
and still its old `roundIndex` and `hintLevel`; the session is advanced
(`roundIndex + 1`, `hintLevel = 1`) in the state after the handler. -/
theorem guess_correct_effects_in_order (s : State) (id : SocketId) (text : String)
    (player : Player) (song : Song) (awarded : Int)
    (hp : getPlayer s.players id = some player)
    (hs : songs[player.roundIndex]? = some song)
    (hh : hintPoints[player.hintLevel]? = some awarded)
    (hm : toLowerCase text = toLowerCase song.title) :
    ∃ s1 out, guess s id text = some (s1, out)
      ∧ getPlayer s1.players id =
          some { player with points := player.points + awarded,
                             roundIndex := player.roundIndex + 1, hintLevel := 1 }
      ∧ getPlayer (setPlayer s.players id { player with points := player.points + awarded }) id
          = some { player with points := player.points + awarded }
      ∧ out =
          (updateTopScores s.file player.name (player.points + awarded)).effects ++
          [Effect.emitAll (Event.topScores
              (updateTopScores s.file player.name (player.points + awarded)).returned),
           Effect.emit id (Event.roundInfo RoundInfo.acertado),
           updateScoreboard
             (setPlayer s.players id { player with points := player.points + awarded })] ++
          (if player.roundIndex + 1 < songs.length then
            [Effect.emit id (Event.roundInfo RoundInfo.siguiente),
             Effect.emit id (Event.newHint (some 1) false)]
           else
            [Effect.emit id (Event.roundInfo
              (RoundInfo.terminado (player.points + awarded)))]) := by
  refine ⟨_, _, guess_of_match hp hs hh hm, getPlayer_setPlayer_self _ _ _,
    getPlayer_setPlayer_self _ _ _, ?_⟩
  congr 1
  unfold guessTail
  by_cases hlt : player.roundIndex + 1 < songs.length
  · simp only [hlt, if_true, List.getElem?_eq_getElem hlt]
  · have hnone : songs[player.roundIndex + 1]? = none := by
      rw [List.getElem?_eq_none_iff]; omega
    simp only [hlt, if_false, hnone]

theorem guess_correct_effects_in_order_witness :
    ∃ s1 out, guess secondHintState "a" "Billie jean" = some (s1, out)
      ∧ getPlayer s1.players "a" =
          some { name := "ana", points := 75, guessed := false, hintLevel := 1, roundIndex := 1 }
      ∧ out =
          [Effect.writeFile [{ name := "ana", points := 75 }],
           Effect.emitAll (Event.topScores [{ name := "ana", points := 75 }]),
           Effect.emit "a" (Event.roundInfo RoundInfo.acertado),
           Effect.emitAll (Event.scoreboard
             [{ name := "ana", points := 75, guessed := false, hintLevel := 2,
                roundIndex := 0 }]),
           Effect.emit "a" (Event.roundInfo RoundInfo.siguiente),
           Effect.emit "a" (Event.newHint (some 1) false)] :=
  match guess_correct_effects_in_order secondHintState "a" "Billie jean"
      { name := "ana", points := 0, guessed := false, hintLevel := 2, roundIndex := 0 }
      { url := "/songs/song1.mp3", title := "Billie jean" } 75
      (by decide) (by decide) (by decide) (by decide) with
  | ⟨s1, out, hrun, hplayer, _, hout⟩ => ⟨s1, out, hrun, hplayer, hout.trans (by decide)⟩

/-- C14, as the claim states it, fails in `tiedState`: socket `"a"` has a
session with 100 points, sends `registerPlayer` again, and has a session with
0 points afterwards. -/
theorem registerPlayer_again_resets_points :
    Reachable tiedState
    ∧ (getPlayer tiedState.players "a").map Player.points = some 100
    ∧ ((handle tiedState "a" (Input.registerPlayer "ana")).bind
        (fun r => (getPlayer r.1.players "a").map Player.points)) = some 0
    ∧ ¬ ((0 : Int) ≥ 100) := by
  exact ⟨tiedState_reachable, by decide, by decide, by decide⟩

/-- C14, amended: in a reachable state the points of a session are a
non-negative integer, and no inbound event other than `registerPlayer` makes
them decrease: for every such event that is handled, from any socket, a session
that exists before and after it has afterwards at least the points it had
before. -/
theorem points_nonneg_and_nondecreasing (s s1 : State) (c d : SocketId) (input : Input)
    (out : List Effect) (p q : Player) (hr : Reachable s)
    (hnot : ∀ name, input ≠ Input.registerPlayer name)
    (hstep : handle s c input = some (s1, out))
    (hp : getPlayer s.players d = some p) (hq : getPlayer s1.players d = some q) :
    0 ≤ p.points ∧ p.points ≤ q.points := by
  have hnonneg : 0 ≤ p.points :=
    Reachable.forall_player (fun x => 0 ≤ x.points) (fun _ => le_refl _) (fun _ h _ => h)
      (fun x song awarded h _ hh => by
        have := (hintPoints_bounds hh).1
        simp only
        omega)
      (fun _ h => h) hr d p hp
  refine ⟨hnonneg, ?_⟩
  by_cases hd : d = c
  · subst hd
    rcases handle_getPlayer_self hstep with h | ⟨name, hin, -⟩ | ⟨-, h⟩ | ⟨x, hx, -, -, h⟩
      | ⟨x, text, song, awarded, hx, -, -, hh, -, h⟩ | ⟨x, hx, -, h⟩
    · rw [h, hp] at hq; cases hq; exact le_refl _
    · exact absurd hin (hnot name)
    · rw [h] at hq; cases hq
    · rw [hx] at hp; cases hp
      rw [h] at hq; cases hq
      exact le_refl _
    · rw [hx] at hp; cases hp
      rw [h] at hq; cases hq
      have := (hintPoints_bounds hh).1
      simp only
      omega
    · rw [hx] at hp; cases hp
      rw [h] at hq; cases hq
      exact le_refl _
  · rw [handle_getPlayer_other hstep hd, hp] at hq
    cases hq
    exact le_refl _

theorem points_nonneg_and_nondecreasing_witness : (0 : Int) ≤ 0 ∧ (0 : Int) ≤ 75 :=
  points_nonneg_and_nondecreasing secondHintState
    { players := [("a", { name := "ana", points := 75, guessed := false, hintLevel := 1,
                          roundIndex := 1 })],
      file := some [{ name := "ana", points := 75 }] }
    "a" "a" (Input.guess "Billie jean")
    [Effect.writeFile [{ name := "ana", points := 75 }],
     Effect.emitAll (Event.topScores [{ name := "ana", points := 75 }]),
     Effect.emit "a" (Event.roundInfo RoundInfo.acertado),
     Effect.emitAll (Event.scoreboard
       [{ name := "ana", points := 75, guessed := false, hintLevel := 2, roundIndex := 0 }]),
     Effect.emit "a" (Event.roundInfo RoundInfo.siguiente),
     Effect.emit "a" (Event.newHint (some 1) false)]
    { name := "ana", points := 0, guessed := false, hintLevel := 2, roundIndex := 0 }
    { name := "ana", points := 75, guessed := false, hintLevel := 1, roundIndex := 1 }
    secondHintState_reachable (by intro name h; cases h) (by decide) (by decide) (by decide)

theorem hintDurations_of_hintInBounds {s : State} {id : SocketId} {player : Player}
    (h : HintInBounds s) (hp : getPlayer s.players id = some player) :
    ∃ d, hintDurations[player.hintLevel]? = some d := by
  have hb := h id player hp
  have hlen : player.hintLevel < hintDurations.length := by
    simp only [hintDurations, List.length_cons, List.length_nil] at hb ⊢
    omega
  exact ⟨hintDurations[player.hintLevel], List.getElem?_eq_getElem hlen⟩

/-- C15: in a reachable state, `play snippet` on a session whose current song
exists leaves the whole state (every session and the top-10 file) as it was and
has one effect: an `audio snippet` event to the caller, with the `url` of
`songs[roundIndex]` and the entry of `hintDurations` at `hintLevel`. -/
theorem playSnippet_emits_current_snippet (s : State) (id : SocketId) (player : Player)
    (song : Song) (hr : Reachable s) (hp : getPlayer s.players id = some player)
    (hs : songs[player.roundIndex]? = some song) :
    ∃ d, hintDurations[player.hintLevel]? = some d
      ∧ playSnippet s id = (s, [Effect.emit id (Event.audioSnippet song.url (some d))]) := by
  obtain ⟨d, hd⟩ := hintDurations_of_hintInBounds hr.hintInBounds hp
  refine ⟨d, hd, ?_⟩
  simp [playSnippet, hp, hs, hd]

theorem playSnippet_emits_current_snippet_witness :
    ∃ d, hintDurations[2]? = some d
      ∧ playSnippet secondHintState "a" =
          (secondHintState, [Effect.emit "a" (Event.audioSnippet "/songs/song1.mp3" (some d))]) :=
  playSnippet_emits_current_snippet secondHintState "a"
    { name := "ana", points := 0, guessed := false, hintLevel := 2, roundIndex := 0 }
    { url := "/songs/song1.mp3", title := "Billie jean" }
    secondHintState_reachable (by decide) (by decide)

/-- C17: every handler touches only the session of the calling socket. For
every inbound event from socket `c` that is handled and every other socket `d`,
the session of `d` (whether it exists, and its name, points, `hintLevel` and
`roundIndex`) is the same before and after. -/
theorem handlers_leave_other_sessions (s s1 : State) (c d : SocketId) (input : Input)
    (out : List Effect) (hstep : handle s c input = some (s1, out)) (hd : d ≠ c) :
    getPlayer s1.players d = getPlayer s.players d :=
  handle_getPlayer_other hstep hd

theorem handlers_leave_other_sessions_witness :
    ("b" : SocketId) ≠ "a"
    ∧ getPlayer (skipSong tiedState "a").1.players "b" = getPlayer tiedState.players "b" :=
  ⟨by decide,
    handlers_leave_other_sessions tiedState (skipSong tiedState "a").1 "a" "b" Input.skipSong
      (skipSong tiedState "a").2 rfl (by decide)⟩

/-! ## The registry: lemmas -/

theorem mem_keys_iff (players : List (SocketId × Player)) (id : SocketId) :
    id ∈ keys players ↔ (getPlayer players id).isSome = true := by
  induction players with
  | nil => simp [keys, getPlayer]
  | cons kv rest ih =>
    obtain ⟨k, v⟩ := kv
    by_cases hk : k = id
    · simp [keys, getPlayer, hk]
    · have hne : ¬ id = k := fun h => hk h.symm
      simp only [keys, List.map_cons, List.mem_cons, hne, false_or, getPlayer, hk, if_false]
      exact ih

theorem keys_setPlayer (players : List (SocketId × Player)) (id : SocketId) (p : Player) :
    keys (setPlayer players id p) =
      if id ∈ keys players then keys players else keys players ++ [id] := by
  induction players with
  | nil => simp [keys, setPlayer]
  | cons kv rest ih =>
    obtain ⟨k, v⟩ := kv
    by_cases hk : k = id
    · subst hk
      simp [keys, setPlayer]
    · have hne : ¬ id = k := fun h => hk h.symm
      have ih1 : List.map Prod.fst (setPlayer rest id p) =
          if id ∈ List.map Prod.fst rest then List.map Prod.fst rest
          else List.map Prod.fst rest ++ [id] := ih
      simp only [keys, setPlayer, hk, if_false, List.map_cons, List.mem_cons, hne, false_or, ih1]
      split <;> rfl

theorem nodup_keys_setPlayer {players : List (SocketId × Player)} (id : SocketId) (p : Player)
    (h : (keys players).Nodup) : (keys (setPlayer players id p)).Nodup := by
  rw [keys_setPlayer]
  split
  · exact h
  · rename_i hmem
    rw [List.nodup_append]
    refine ⟨h, List.nodup_singleton _, ?_⟩
    intro a ha hb
    rw [List.mem_singleton] at hb
    subst hb
    exact hmem ha

theorem nodup_keys_deletePlayer {players : List (SocketId × Player)} (id : SocketId)
    (h : (keys players).Nodup) : (keys (deletePlayer players id)).Nodup := by
  unfold keys deletePlayer at *
  exact List.Nodup.sublist (List.Sublist.map _ (List.filter_sublist _)) h

/-- An inbound event leaves `players` alone, writes the entry of the caller or
deletes it. -/
theorem handle_players_cases {s s1 : State} {c : SocketId} {input : Input}
    {out : List Effect} (h : handle s c input = some (s1, out)) :
    s1.players = s.players ∨ (∃ p, s1.players = setPlayer s.players c p)
      ∨ s1.players = deletePlayer s.players c := by
  cases input with
  | registerPlayer name =>
    simp only [handle, registerPlayer, Option.some.injEq, Prod.mk.injEq] at h
    obtain ⟨rfl, -⟩ := h
    exact Or.inr (Or.inl ⟨_, rfl⟩)
  | chatMessage msg =>
    simp only [handle, chatMessage, Option.some.injEq, Prod.mk.injEq] at h
    obtain ⟨rfl, -⟩ := h
    exact Or.inl rfl
  | playSnippet =>
    simp only [handle, playSnippet, Option.some.injEq] at h
    split at h
    · cases h; exact Or.inl rfl
    · split at h <;> cases h <;> exact Or.inl rfl
  | requestHint =>
    simp only [handle, requestHint, Option.some.injEq] at h
    split at h
    · cases h; exact Or.inl rfl
    · split at h
      · cases h; exact Or.inr (Or.inl ⟨_, rfl⟩)
      · cases h; exact Or.inl rfl
  | guess text =>
    simp only [handle, guess] at h
    split at h
    · cases h; exact Or.inl rfl
    · split at h
      · cases h; exact Or.inl rfl
      · split at h
        · cases h; exact Or.inl rfl
        · split at h
          · cases h
          · cases h; exact Or.inr (Or.inl ⟨_, rfl⟩)
  | skipSong =>
    simp only [handle, skipSong, Option.some.injEq] at h
    split at h
    · cases h; exact Or.inl rfl
    · split at h <;> cases h <;> exact Or.inr (Or.inl ⟨_, rfl⟩)
  | disconnect =>
    simp only [handle, disconnect, Option.some.injEq, Prod.mk.injEq] at h
    obtain ⟨rfl, -⟩ := h
    exact Or.inr (Or.inr rfl)

/-- No two sessions share a socket id. -/
theorem Reachable.nodup_keys {s : State} (hs : Reachable s) : (keys s.players).Nodup := by
  induction hs with
  | start file => simp [initial, keys]
  | @step s s1 c input out _ hstep ih =>
    rcases handle_players_cases hstep with h | ⟨p, h⟩ | h
    · rw [h]; exact ih
    · rw [h]; exact nodup_keys_setPlayer c p ih
    · rw [h]; exact nodup_keys_deletePlayer c ih

theorem handle_isSome_getPlayer {s s1 : State} {c : SocketId} {input : Input}
    {out : List Effect} (h : handle s c input = some (s1, out)) (id : SocketId) :
    (getPlayer s1.players id).isSome =
      registeredNext (getPlayer s.players id).isSome c input id := by
  by_cases hc : c = id
  · subst hc
    have hother : (∀ name, input ≠ Input.registerPlayer name) → input ≠ Input.disconnect →
        (getPlayer s1.players c).isSome = (getPlayer s.players c).isSome := by
      intro hreg hdis
      rcases handle_getPlayer_self h with h1 | ⟨name, hin, -⟩ | ⟨hin, -⟩ | ⟨p, hp, -, -, h1⟩
        | ⟨p, _, _, _, hp, -, -, -, -, h1⟩ | ⟨p, hp, -, h1⟩
      · rw [h1]
      · exact absurd hin (hreg name)
      · exact absurd hin hdis
      · rw [h1, hp]; rfl
      · rw [h1, hp]; rfl
      · rw [h1, hp]; rfl
    cases input with
    | registerPlayer name =>
      simp only [handle, registerPlayer, Option.some.injEq, Prod.mk.injEq] at h
      obtain ⟨rfl, -⟩ := h
      simp [registeredNext, getPlayer_setPlayer_self]
    | disconnect =>
      simp only [handle, disconnect, Option.some.injEq, Prod.mk.injEq] at h
      obtain ⟨rfl, -⟩ := h
      simp [registeredNext, getPlayer_deletePlayer_self]
    | chatMessage msg =>
      simpa [registeredNext] using hother (fun _ hh => by cases hh) (fun hh => by cases hh)
    | playSnippet =>
      simpa [registeredNext] using hother (fun _ hh => by cases hh) (fun hh => by cases hh)
    | requestHint =>
      simpa [registeredNext] using hother (fun _ hh => by cases hh) (fun hh => by cases hh)
    | guess text =>
      simpa [registeredNext] using hother (fun _ hh => by cases hh) (fun hh => by cases hh)
    | skipSong =>
      simpa [registeredNext] using hother (fun _ hh => by cases hh) (fun hh => by cases hh)
  · have hne : id ≠ c := fun hh => hc hh.symm
    simp only [registeredNext, hc, if_false]
    rw [handle_getPlayer_other h hne]

theorem run_isSome_getPlayer {s s1 : State} (events : List (SocketId × Input))
    (h : run s events = some s1) (id : SocketId) :
    (getPlayer s1.players id).isSome =
      registeredAfter (getPlayer s.players id).isSome events id := by
  induction events generalizing s with
  | nil =>
    simp only [run, Option.some.injEq] at h
    subst h
    rfl
  | cons ev rest ih =>
    obtain ⟨c, input⟩ := ev
    simp only [run] at h
    cases hstep : handle s c input with
    | none => simp [hstep] at h
    | some r =>
      obtain ⟨s2, out⟩ := r
      simp only [hstep] at h
      rw [ih h, handle_isSome_getPlayer hstep id]
      rfl

/-- From a reachable state every sequence of inbound events runs to its end. -/
theorem Reachable.run_isSome {s : State} (hs : Reachable s)
    (events : List (SocketId × Input)) : ∃ s1, Songless.run s events = some s1 := by
  induction events generalizing s with
  | nil => exact ⟨s, rfl⟩
  | cons ev rest ih =>
    obtain ⟨c, input⟩ := ev
    cases hstep : handle s c input with
    | none =>
      have := hs.handle_isSome c input
      simp [hstep] at this
    | some r =>
      obtain ⟨s2, out⟩ := r
      obtain ⟨s1, h1⟩ := ih (Reachable.step hs hstep)
      exact ⟨s1, by simp only [Songless.run, hstep, h1]⟩

/-- C16: `registerPlayer` with a name leaves the caller with a session with
that name, 0 points, `hintLevel` 0 and `roundIndex` 0 and every other session as
it was; `disconnect` leaves the caller without session and every other session
as it was; and every sequence of inbound events from start-up runs to its end
in a state whose registry has no key twice and whose keys are exactly the
sockets that have registered and not disconnected since. -/
theorem registry_holds_registered_sockets :
    (∀ (s : State) (id : SocketId) (name : String),
      getPlayer (registerPlayer s id name).1.players id =
          some { name := name, points := 0, guessed := false, hintLevel := 0, roundIndex := 0 }
      ∧ ∀ other, other ≠ id →
          getPlayer (registerPlayer s id name).1.players other = getPlayer s.players other)
    ∧ (∀ (s : State) (id : SocketId),
      getPlayer (disconnect s id).1.players id = none
      ∧ ∀ other, other ≠ id →
          getPlayer (disconnect s id).1.players other = getPlayer s.players other)
    ∧ (∀ (file : Option (List Entry)) (events : List (SocketId × Input)),
      ∃ s, run (initial file) events = some s
        ∧ (keys s.players).Nodup
        ∧ ∀ id, id ∈ keys s.players ↔ registeredAfter false events id = true) := by
  refine ⟨?_, ?_, ?_⟩
  · intro s id name
    exact ⟨getPlayer_setPlayer_self _ _ _, fun other ho => getPlayer_setPlayer_other _ _ _ _ ho⟩
  · intro s id
    exact ⟨getPlayer_deletePlayer_self _ _, fun other ho => getPlayer_deletePlayer_other _ _ _ ho⟩
  · intro file events
    obtain ⟨s, hrun⟩ := (Reachable.start file).run_isSome events
    refine ⟨s, hrun, ((Reachable.start file).run events hrun).nodup_keys, ?_⟩
    intro id
    rw [mem_keys_iff, run_isSome_getPlayer events hrun id]
    rfl

theorem registry_holds_registered_sockets_witness :
    (("b" : SocketId) ≠ "a"
      ∧ getPlayer (disconnect tiedState "a").1.players "b" = getPlayer tiedState.players "b")
    ∧ ∃ s, run (initial none)
          [("a", Input.registerPlayer "ana"), ("b", Input.registerPlayer "leo"),
           ("a", Input.disconnect)] = some s
        ∧ (keys s.players).Nodup
        ∧ "b" ∈ keys s.players
        ∧ "a" ∉ keys s.players :=
  ⟨⟨by decide, (registry_holds_registered_sockets.2.1 tiedState "a").2 "b" (by decide)⟩,
    match registry_holds_registered_sockets.2.2 none
        [("a", Input.registerPlayer "ana"), ("b", Input.registerPlayer "leo"),
         ("a", Input.disconnect)] with
    | ⟨s, hrun, hnodup, hkeys⟩ =>
      ⟨s, hrun, hnodup, (hkeys "b").mpr (by decide),
        fun h => absurd ((hkeys "a").mp h) (by decide)⟩⟩

/-- C18: the first snippet of a new round is never silent. In every reachable
state a session with `roundIndex ≥ 1` has `hintLevel ≥ 1`, and `play snippet`
on such a session, when its song exists, emits one `audio snippet` with a
duration of at least 1 second and changes nothing. -/
theorem later_rounds_play_at_least_one_second (s : State) (id : SocketId) (player : Player)
    (hr : Reachable s) (hp : getPlayer s.players id = some player)
    (hround : 1 ≤ player.roundIndex) :
    1 ≤ player.hintLevel
    ∧ ∀ song, songs[player.roundIndex]? = some song →
        ∃ d, 1 ≤ d ∧ hintDurations[player.hintLevel]? = some d
          ∧ playSnippet s id = (s, [Effect.emit id (Event.audioSnippet song.url (some d))]) := by
  have hlevel : 1 ≤ player.hintLevel :=
    Reachable.forall_player (fun x => 1 ≤ x.roundIndex → 1 ≤ x.hintLevel)
      (fun _ h => by simp at h)
      (fun x h _ hx => by
        have := h hx
        simp only
        omega)
      (fun _ _ _ _ _ _ _ => le_refl _)
      (fun _ _ _ => le_refl _) hr id player hp hround
  refine ⟨hlevel, ?_⟩
  intro song hs
  obtain ⟨d, hd⟩ := hintDurations_of_hintInBounds hr.hintInBounds hp
  refine ⟨d, ?_, hd, by simp [playSnippet, hp, hs, hd]⟩
  obtain ⟨hlt, hval⟩ := List.getElem?_eq_some_iff.mp hd
  simp only [hintDurations, List.length_cons, List.length_nil] at hlt
  subst hval
  have hcases : player.hintLevel = 1 ∨ player.hintLevel = 2 ∨ player.hintLevel = 3
      ∨ player.hintLevel = 4 := by omega
  rcases hcases with h | h | h | h <;> simp [hintDurations, h]

theorem later_rounds_play_at_least_one_second_witness :
    1 ≤ 1
    ∧ ∃ d, 1 ≤ d ∧ hintDurations[1]? = some d
        ∧ playSnippet tiedState "b" =
            (tiedState, [Effect.emit "b" (Event.audioSnippet "/songs/song2.mp3" (some d))]) :=
  have claim := later_rounds_play_at_least_one_second tiedState "b"
    { name := "leo", points := 100, guessed := false, hintLevel := 1, roundIndex := 1 }
    tiedState_reachable (by decide) (by decide)
  ⟨claim.1,
    claim.2 { url := "/songs/song2.mp3", title := "Never gonna give you up" } (by decide)⟩

/-! ## Top 10: the inserted entry -/

theorem take_succ_insert_eraseIdx (entry : Entry) (post : List Entry) (pre : List Entry)
    (n : Nat) (hn : pre.length ≤ n) :
    ((pre ++ entry :: post).take (n + 1))[pre.length]? = some entry
    ∧ ((pre ++ entry :: post).take (n + 1)).eraseIdx pre.length = (pre ++ post).take n := by
  induction pre generalizing n with
  | nil => simp
  | cons x rest ih =>
    obtain ⟨m, rfl⟩ : ∃ m, n = m + 1 := ⟨n - 1, by simp only [List.length_cons] at hn; omega⟩
    have hm : rest.length ≤ m := by simp only [List.length_cons] at hn; omega
    obtain ⟨h1, h2⟩ := ih m hm
    simp only [List.cons_append, List.take_succ_cons, List.length_cons,
      List.getElem?_cons_succ, List.eraseIdx_cons_succ, h1, h2, and_self]

/-- C19: the top 10 is insert-only. When the stored list has at most 10
entries and the candidate is inserted (some stored entry has points strictly
below the candidate's, or the list has fewer than 10 entries), the list
returned holds the candidate at some index, and removing the entry at that
index gives the stored list when it had fewer than 10 entries and the stored
list without its last entry when it had 10: no stored entry is merged, replaced
or moved, whatever the candidate's name. -/
theorem updateTopScores_insert_only (file : Option (List Entry)) (stored : List Entry)
    (name : String) (pts : Int) (hfile : loadTopScores file = stored)
    (hlen : stored.length ≤ 10)
    (hins : (∃ e ∈ stored, e.points < pts) ∨ stored.length < 10) :
    ∃ i, (updateTopScores file name pts).returned[i]? = some { name := name, points := pts }
      ∧ (stored.length < 10 → (updateTopScores file name pts).returned.eraseIdx i = stored)
      ∧ (stored.length = 10 →
          (updateTopScores file name pts).returned.eraseIdx i = stored.dropLast) := by
  subst hfile
  have hshape : ∃ pre post, loadTopScores file = pre ++ post ∧ pre.length ≤ 9
      ∧ (updateTopScores file name pts).returned
          = (pre ++ { name := name, points := pts } :: post).take (9 + 1) := by
    cases hb : breakIndex pts (loadTopScores file) 0 with
    | some i =>
      obtain ⟨pre, e, post, hl, hi, -, -⟩ := breakIndex_eq_some hb
      have hi1 : i = pre.length := by omega
      refine ⟨pre, e :: post, hl, ?_, ?_⟩
      · have : (loadTopScores file).length = pre.length + (post.length + 1) := by
          rw [hl]; simp
        omega
      · rw [updateTopScores_of_break hb]
        simp only
        rw [hi1]
        conv_lhs => rw [hl]
        rw [splice_append_cons]
    | none =>
      have hlt : (loadTopScores file).length < 10 := by
        rcases hins with ⟨e, hmem, he⟩ | h
        · exact absurd (breakIndex_eq_none.mp hb e hmem) (not_le.mpr he)
        · exact h
      refine ⟨loadTopScores file, [], by simp, by omega, ?_⟩
      rw [updateTopScores_of_push hb hlt]
  obtain ⟨pre, post, hl, hpre, hret⟩ := hshape
  obtain ⟨h1, h2⟩ := take_succ_insert_eraseIdx { name := name, points := pts } post pre 9 hpre
  refine ⟨pre.length, by rw [hret]; exact h1, ?_, ?_⟩
  · intro hlt
    rw [hret, h2, ← hl]
    exact List.take_of_length_le (by omega)
  · intro heq
    rw [hret, h2, ← hl, List.dropLast_eq_take, heq]

theorem updateTopScores_insert_only_witness :
    (updateTopScores (some [{ name := "ana", points := 100 }]) "ana" 100).returned
        = [{ name := "ana", points := 100 }, { name := "ana", points := 100 }]
    ∧ ∃ i, (updateTopScores (some fullTop) "p1" 100).returned[i]?
          = some { name := "p1", points := 100 }
      ∧ (updateTopScores (some fullTop) "p1" 100).returned.eraseIdx i = fullTop.dropLast :=
  ⟨by decide,
    match updateTopScores_insert_only (some fullTop) fullTop "p1" 100 rfl (by decide)
        (Or.inl ⟨{ name := "p10", points := 75 }, by decide, by decide⟩) with
    | ⟨i, hat, _, hfull⟩ => ⟨i, hat, hfull (by decide)⟩⟩

/-- C20: in every reachable state a session has at most 100 points per round
played, up to four rounds: its points are at most `100 * min roundIndex 4`. So
no session has more than 400 points, and a session with `roundIndex = 0` has 0
points. -/
theorem points_at_most_hundred_per_round (s : State) (id : SocketId) (player : Player)
    (hr : Reachable s) (hp : getPlayer s.players id = some player) :
    player.points ≤ 100 * ((min player.roundIndex 4 : Nat) : Int)
    ∧ player.points ≤ 400
    ∧ (player.roundIndex = 0 → player.points = 0) := by
  have hinv : 0 ≤ player.points ∧ player.points ≤ 100 * ((min player.roundIndex 4 : Nat) : Int) :=
    Reachable.forall_player
      (fun x => 0 ≤ x.points ∧ x.points ≤ 100 * ((min x.roundIndex 4 : Nat) : Int))
      (fun _ => by simp)
      (fun _ h _ => h)
      (fun x song awarded h hsong hh => by
        obtain ⟨hlt, -⟩ := List.getElem?_eq_some_iff.mp hsong
        simp only [songs, List.length_cons, List.length_nil] at hlt
        obtain ⟨h0, h100⟩ := hintPoints_bounds hh
        obtain ⟨hx0, hx⟩ := h
        have e1 : min x.roundIndex 4 = x.roundIndex := by omega
        have e2 : min (x.roundIndex + 1) 4 = x.roundIndex + 1 := by omega
        rw [e1] at hx
        simp only [e2]
        constructor
        · omega
        · push_cast
          omega)
      (fun x h => by
        obtain ⟨hx0, hx⟩ := h
        refine ⟨hx0, le_trans hx ?_⟩
        have : min x.roundIndex 4 ≤ min (x.roundIndex + 1) 4 := by omega
        have hc : ((min x.roundIndex 4 : Nat) : Int) ≤ ((min (x.roundIndex + 1) 4 : Nat) : Int) :=
          Int.ofNat_le.mpr this
        simp only
        omega)
      hr id player hp
  obtain ⟨h0, h1⟩ := hinv
  have hn : min player.roundIndex 4 ≤ 4 := by omega
  have hmin : ((min player.roundIndex 4 : Nat) : Int) ≤ 4 := by exact_mod_cast hn
  refine ⟨h1, by omega, ?_⟩
  intro hz
  rw [hz] at h1
  simp only [Nat.zero_min, Nat.cast_zero, mul_zero] at h1
  omega

theorem points_at_most_hundred_per_round_witness :
    ((100 : Int) ≤ 100 * ((min 1 4 : Nat) : Int) ∧ (100 : Int) ≤ 400)
    ∧ (0 : Int) = 0 :=
  have tied := points_at_most_hundred_per_round tiedState "a"
    { name := "ana", points := 100, guessed := false, hintLevel := 1, roundIndex := 1 }
    tiedState_reachable (by decide)
  have first := points_at_most_hundred_per_round firstHintState "a"
    { name := "ana", points := 0, guessed := false, hintLevel := 1, roundIndex := 0 }
    firstHintState_reachable (by decide)
  ⟨⟨tied.1, tied.2.1⟩, first.2.2 rfl⟩

end Songless
